import Mathlib

/-!
Verification development for the dice-typescript expression engine
(lexer-token stream, recursive-descent parser `DiceParser`, and the
tree-mutating `DiceInterpreter`).

The embedding is a faithful functional translation of the TypeScript
sources:
* JS numbers that can arise here are rationals; they are embedded as
  unnormalized integer fractions `JsQ` (numerator/denominator) so that
  every operation is kernel-computable.  The special JS values
  `Infinity`, `-Infinity`, `NaN` and `undefined` are explicit
  constructors of the `Value` type, together with strings (attribute
  values are JS `number | string`, and `getAttribute` of a missing key
  yields `undefined`).
* The mutable AST is embedded as an immutable tree `Node`; every
  evaluation function returns the updated node next to its value, and
  mutation of a subtree reached through a child chain is written back
  along the path (`updateAt0`).  The random provider is a function from
  the call index and the inclusive bounds to an integer, and the call
  index is threaded through an explicit state `EvalSt`.
* The unbounded `while` loops of the interpreter (explode, reroll) and
  the descent of `findLeftmostDiceNode` consume explicit fuel; `none`
  means the computation did not finish within the given fuel, and a
  result that is `none` for every fuel is a genuine divergence of the
  JS original.  Bounded `for` loops recurse on their iteration count
  and need no fuel.
-/

/-- String constant: the "value" attribute key. -/
def kValue : String := "value"

/-- String constant: the "drop" attribute key. -/
def kDrop : String := "drop"

/-- String constant: the "sides" attribute key. -/
def kSides : String := "sides"

/-- String constant: the "type" attribute key. -/
def kType : String := "type"

/-- String constant: the "name" attribute key. -/
def kName : String := "name"

/-- String constant: the "direction" attribute key. -/
def kDirection : String := "direction"

/-- String constant: the "penetrate" attribute key. -/
def kPenetrate : String := "penetrate"

/-- String constant: the "once" attribute key. -/
def kOnce : String := "once"

/-- String constant: the "critical" attribute key. -/
def kCritical : String := "critical"

/-- String constant: the string value "yes". -/
def sYes : String := "yes"

/-- String constant: the string value "no". -/
def sNo : String := "no"

/-- String constant: the string value "fate". -/
def sFate : String := "fate"

/-- String constant: the string value "ascending". -/
def sAscending : String := "ascending"

/-- String constant: the string value "descending". -/
def sDescending : String := "descending"

/-- String constant: the string value "lowest". -/
def sLowest : String := "lowest"

/-- String constant: the string value "success". -/
def sSuccess : String := "success"

/-- A JS number value (restricted to the rationals, which is every
number the interpreter can produce from integer-token inputs), kept as
an unnormalized fraction `n / d` with `d > 0` maintained by all
operations.  Unnormalized fractions are used because their arithmetic
is kernel-computable. -/
structure JsQ where
  n : ℤ
  d : ℤ
deriving DecidableEq, Repr

/-- Embed an integer as a `JsQ`. -/
def JsQ.ofInt (k : ℤ) : JsQ := ⟨k, 1⟩

/-- Semantic (rational) value of a `JsQ`. -/
def JsQ.toRat (q : JsQ) : ℚ := (q.n : ℚ) / (q.d : ℚ)

/-- Build a fraction, normalizing the sign so the denominator is
positive whenever the given denominator is nonzero. -/
def JsQ.mk' (n d : ℤ) : JsQ := if d < 0 then ⟨-n, -d⟩ else ⟨n, d⟩

/-- Semantic equality of two fractions (cross multiplication; correct
when both denominators are positive, which every constructed value
has). -/
def JsQ.eqb (a b : JsQ) : Bool := a.n * b.d = b.n * a.d

/-- Semantic strict order on fractions (cross multiplication). -/
def JsQ.ltb (a b : JsQ) : Bool := a.n * b.d < b.n * a.d

/-- Fraction addition. -/
def JsQ.add (a b : JsQ) : JsQ := ⟨a.n * b.d + b.n * a.d, a.d * b.d⟩

/-- Fraction subtraction. -/
def JsQ.sub (a b : JsQ) : JsQ := ⟨a.n * b.d - b.n * a.d, a.d * b.d⟩

/-- Fraction multiplication. -/
def JsQ.mul (a b : JsQ) : JsQ := ⟨a.n * b.n, a.d * b.d⟩

/-- Fraction negation. -/
def JsQ.neg (a : JsQ) : JsQ := ⟨-a.n, a.d⟩

/-- Fraction division (the caller has excluded a zero divisor). -/
def JsQ.div (a b : JsQ) : JsQ := JsQ.mk' (a.n * b.d) (a.d * b.n)

/-- JS `Math.round`: round to nearest, ties toward positive infinity;
`Math.round(x)` equals `floor(x + 1/2)`.  On the fraction `n/d` with
`d > 0` this is the floor division of `2n + d` by `2d`. -/
def JsQ.round (q : JsQ) : ℤ := Int.fdiv (2 * q.n + q.d) (2 * q.d)

/-- Floor of a fraction with positive denominator. -/
def JsQ.floor (q : JsQ) : ℤ := Int.fdiv q.n q.d

/-- Ceiling of a fraction with positive denominator. -/
def JsQ.ceil (q : JsQ) : ℤ := -Int.fdiv (-q.n) q.d

/-- JS truncation toward zero of a fraction (used by the `%`
operator). -/
def JsQ.trunc (q : JsQ) : ℤ := Int.tdiv q.n q.d

/-- A JS value as stored in AST attributes and produced by `evaluate`:
a (finite) number, one of the non-finite numbers `Infinity`,
`-Infinity`, `NaN`, the value `undefined` (what `getAttribute` of an
absent key yields), or a string. -/
inductive Value where
  | num (q : JsQ)
  | inf
  | negInf
  | nan
  | undef
  | str (s : String)
deriving DecidableEq, Repr

/-- Embed an integer as a numeric `Value`. -/
def Value.ofInt (k : ℤ) : Value := .num (JsQ.ofInt k)

/-- JS truthiness of a value: `0`, `NaN`, `undefined` and the empty
string are falsy, everything else that can occur here is truthy. -/
def Value.truthy : Value → Bool
  | .num q => q.n ≠ 0
  | .inf => true
  | .negInf => true
  | .nan => false
  | .undef => false
  | .str s => s ≠ ""

/-- JS `ToNumber` coercion restricted to the values of this program:
`undefined` coerces to `NaN`; the empty string to `0`; the attribute
strings used by this program ("fate", "yes", ...) are not numeric and
coerce to `NaN` (a run of decimal digits would coerce to its value,
which `digitsToNat` computes). -/
def digitsToNat : List Char → Option ℕ
  | [] => some 0
  | c :: cs =>
    if c.isDigit then
      match digitsToNat cs with
      | some acc => some ((c.toNat - 48) * 10 ^ cs.length + acc)
      | none => none
    else none

/-- JS `Number(s)` for the strings this program manipulates: the empty
string is `0`, a nonempty run of decimal digits is its numeric value,
anything else is `NaN`. -/
def strToNumber (s : String) : Value :=
  if s = "" then Value.ofInt 0
  else
    match digitsToNat s.toList with
    | some v => Value.ofInt v
    | none => Value.nan

/-- JS `ToNumber` on a `Value`. -/
def Value.toNumber : Value → Value
  | .num q => .num q
  | .inf => .inf
  | .negInf => .negInf
  | .nan => .nan
  | .undef => .nan
  | .str s => strToNumber s

/-- Rendering of a value as a JS string, used only by the string
concatenation branch of `+` (which no expression of this grammar
reaches): numbers are rendered as their fraction, which approximates
JS decimal rendering but is never observable in the verified claims. -/
def Value.render : Value → String
  | .num q => toString q.n ++ (if q.d = 1 then "" else sep ++ toString q.d)
  | .inf => infStr
  | .negInf => negInfStr
  | .nan => nanStr
  | .undef => undefStr
  | .str s => s
where
  sep : String := "/"
  infStr : String := "Infinity"
  negInfStr : String := "-Infinity"
  nanStr : String := "NaN"
  undefStr : String := "undefined"

/-- JS binary `+` (after `ToPrimitive`): string concatenation when
either operand is a string, numeric addition otherwise. -/
def jsAdd (a b : Value) : Value :=
  match a, b with
  | .str s, v => .str (s ++ v.render)
  | v, .str s => .str (v.render ++ s)
  | _, _ =>
    match a.toNumber, b.toNumber with
    | .num p, .num q => .num (p.add q)
    | .inf, .negInf => .nan
    | .negInf, .inf => .nan
    | .inf, _ => .inf
    | _, .inf => .inf
    | .negInf, _ => .negInf
    | _, .negInf => .negInf
    | _, _ => .nan

/-- JS binary `-`: numeric subtraction. -/
def jsSub (a b : Value) : Value :=
  match a.toNumber, b.toNumber with
  | .num p, .num q => .num (p.sub q)
  | .inf, .inf => .nan
  | .negInf, .negInf => .nan
  | .inf, _ => .inf
  | .negInf, _ => .negInf
  | .num _, .inf => .negInf
  | .num _, .negInf => .inf
  | _, _ => .nan

/-- Sign of a finite fraction (denominators are positive). -/
def JsQ.sgn (q : JsQ) : ℤ := q.n.sign

/-- JS binary `*`: numeric multiplication. -/
def jsMul (a b : Value) : Value :=
  match a.toNumber, b.toNumber with
  | .num p, .num q => .num (p.mul q)
  | .inf, .inf => .inf
  | .inf, .negInf => .negInf
  | .negInf, .inf => .negInf
  | .negInf, .negInf => .inf
  | .inf, .num q => if q.sgn = 0 then .nan else if q.sgn = 1 then .inf else .negInf
  | .num q, .inf => if q.sgn = 0 then .nan else if q.sgn = 1 then .inf else .negInf
  | .negInf, .num q => if q.sgn = 0 then .nan else if q.sgn = 1 then .negInf else .inf
  | .num q, .negInf => if q.sgn = 0 then .nan else if q.sgn = 1 then .negInf else .inf
  | _, _ => .nan

/-- JS binary `/`: numeric division; a nonzero dividend over zero is a
signed infinity, `0/0` is `NaN`. -/
def jsDiv (a b : Value) : Value :=
  match a.toNumber, b.toNumber with
  | .num p, .num q =>
    if q.n = 0 then
      if p.n = 0 then .nan else if p.sgn = 1 then .inf else .negInf
    else .num (p.div q)
  | .num _, .inf => Value.ofInt 0
  | .num _, .negInf => Value.ofInt 0
  | .inf, .num q => if q.sgn = -1 then .negInf else .inf
  | .negInf, .num q => if q.sgn = -1 then .inf else .negInf
  | _, _ => .nan

/-- JS binary `%`: remainder with the sign of the dividend,
`a - b * trunc(a / b)`; a zero divisor gives `NaN`, a finite value
modulo an infinity is the value itself. -/
def jsMod (a b : Value) : Value :=
  match a.toNumber, b.toNumber with
  | .num p, .num q =>
    if q.n = 0 then .nan
    else .num (p.sub (q.mul (JsQ.ofInt ((p.div q).trunc))))
  | .num p, .inf => .num p
  | .num p, .negInf => .num p
  | _, _ => .nan

/-- JS `Math.pow` restricted to the rational model: any base to the
exponent `0` is `1` (including `NaN`); integral exponents give the
exact rational power; a non-integral exponent generally produces an
irrational number, which has no rational representative and is mapped
to `NaN` here (no claim exercises a non-integral exponent). -/
def jsPow (a b : Value) : Value :=
  match a.toNumber, b.toNumber with
  | _, .num q =>
    if q.n = 0 then Value.ofInt 1
    else if q.n % q.d = 0 then
      let e : ℤ := q.n / q.d
      match a.toNumber with
      | .num p =>
        if 0 ≤ e then .num ⟨p.n ^ e.toNat, p.d ^ e.toNat⟩
        else if p.n = 0 then .inf
        else .num (JsQ.mk' (p.d ^ (-e).toNat) (p.n ^ (-e).toNat))
      | .inf => if 0 ≤ e then .inf else Value.ofInt 0
      | .negInf =>
        if 0 ≤ e then (if e % 2 = 0 then .inf else .negInf) else Value.ofInt 0
      | _ => .nan
    else .nan
  | _, .inf => .nan
  | _, .negInf => .nan
  | _, _ => .nan

/-- JS unary `-`: numeric negation. -/
def jsNeg (a : Value) : Value :=
  match a.toNumber with
  | .num p => .num p.neg
  | .inf => .negInf
  | .negInf => .inf
  | _ => .nan

/-- JS strict equality `===` on the values of this program. -/
def jsStrictEq (a b : Value) : Bool :=
  match a, b with
  | .num p, .num q => p.eqb q
  | .inf, .inf => true
  | .negInf, .negInf => true
  | .undef, .undef => true
  | .str s, .str t => s = t
  | _, _ => false

/-- JS `<` (abstract relational comparison): lexicographic when both
operands are strings, otherwise numeric with `NaN` incomparable. -/
def jsLt (a b : Value) : Bool :=
  match a, b with
  | .str s, .str t => decide (s < t)
  | _, _ =>
    match a.toNumber, b.toNumber with
    | .num p, .num q => p.ltb q
    | .num _, .inf => true
    | .negInf, .num _ => true
    | .negInf, .inf => true
    | _, _ => false

/-- JS `>`. -/
def jsGt (a b : Value) : Bool := jsLt b a

/-- JS `<=`: false when either operand is `NaN`, otherwise the
negation of the reversed `<`. -/
def jsLe (a b : Value) : Bool :=
  match a, b with
  | .str s, .str t => !decide (t < s)
  | _, _ =>
    match a.toNumber, b.toNumber with
    | .nan, _ => false
    | _, .nan => false
    | _, _ => !jsLt b a

/-- JS `>=`. -/
def jsGe (a b : Value) : Bool := jsLe b a

/-- JS `Math.round` as a `Value` operation (coercing first as JS
does). -/
def jsRound : Value → Value
  | v =>
    match v.toNumber with
    | .num q => Value.ofInt q.round
    | .inf => .inf
    | .negInf => .negInf
    | _ => .nan

/-- The AST node type tags of ast/node-type (the closed set the
interpreter dispatches on). -/
inductive NodeType where
  | Integer
  | DiceSides
  | Dice
  | DiceRoll
  | Add
  | Subtract
  | Multiply
  | Divide
  | Modulo
  | Exponent
  | Negate
  | Equal
  | Greater
  | GreaterOrEqual
  | Less
  | LessOrEqual
  | Function
  | Group
  | Explode
  | Keep
  | Drop
  | Critical
  | Reroll
  | Sort
deriving DecidableEq, Repr

/-- Rendering of a node type inside error messages (the TypeScript
template string interpolates the enum value). -/
def NodeType.render : NodeType → String
  | .Integer => reprStr NodeType.Integer
  | t => toString (repr t)

/-- A mutable AST node of the ast module: a type tag, an ordered child
list and a string-keyed attribute map, embedded as an immutable tree
that evaluation threads through explicitly. -/
inductive Node where
  | mk (type : NodeType) (children : List Node) (attrs : List (String × Value))

/-- The node's type tag. -/
def Node.type : Node → NodeType
  | .mk t _ _ => t

/-- The node's ordered child list. -/
def Node.children : Node → List Node
  | .mk _ c _ => c

/-- The node's attribute map. -/
def Node.attrs : Node → List (String × Value)
  | .mk _ _ a => a

/-- Attribute lookup helper on the underlying association list. -/
def attrLookup (key : String) : List (String × Value) → Value
  | [] => .undef
  | (k, v) :: rest => if k = key then v else attrLookup key rest

/-- `getAttribute`: the stored value, or JS `undefined` when the key
is absent. -/
def Node.getAttr (e : Node) (key : String) : Value := attrLookup key e.attrs

/-- Attribute update helper: replace in place or append. -/
def attrSet (key : String) (v : Value) : List (String × Value) → List (String × Value)
  | [] => [(key, v)]
  | (k, w) :: rest => if k = key then (k, v) :: rest else (k, w) :: attrSet key v rest

/-- `setAttribute`. -/
def Node.setAttr (e : Node) (key : String) (v : Value) : Node :=
  .mk e.type e.children (attrSet key v e.attrs)

/-- `getChildCount`. -/
def Node.childCount (e : Node) : ℕ := e.children.length

/-- `getChild`: `none` models the JS `undefined` of an out-of-range
index. -/
def Node.getChild (e : Node) (i : ℕ) : Option Node := e.children.get? i

/-- `clearChildren`. -/
def Node.clearChildren (e : Node) : Node := .mk e.type [] e.attrs

/-- `addChild` (the returned node is the parent; the parser's use of
the child return value is written out explicitly at its call sites). -/
def Node.addChild (e : Node) (c : Node) : Node := .mk e.type (e.children ++ [c]) e.attrs

/-- Replace child `i`, used to write a mutated child back into its
parent. -/
def Node.setChildAt (e : Node) (i : ℕ) (c : Node) : Node :=
  .mk e.type (e.children.set i c) e.attrs

/-- `Ast.Factory.create`. -/
def Factory.create (t : NodeType) : Node := .mk t [] []

/-- Modelled from the spec: `ExpressionNode.copy` (the ast module is
not part of the provided sources).  Per the specification it is a deep
structural copy of the tree, which on the immutable embedding is the
identity on the tree value: the copy shares no mutable state with the
original. -/
def Node.copy (e : Node) : Node := e

/-- The subtree reached by descending `depth` times into the first
child. -/
def Node.subtreeAt0 : Node → ℕ → Option Node
  | e, 0 => some e
  | e, depth + 1 =>
    match e.children with
    | [] => none
    | c :: _ => c.subtreeAt0 depth

/-- Replace the subtree reached by descending `depth` times into the
first child (writing a mutation back along a `findLeftmostDiceNode`
path). -/
def Node.updateAt0 : Node → ℕ → Node → Node
  | _, 0, x => x
  | e, depth + 1, x =>
    match e.children with
    | [] => e
    | c :: rest => .mk e.type (c.updateAt0 depth x :: rest) e.attrs

/-- The interpreter evaluation state: the number of random-provider
calls made so far (the provider is modelled as a function of this call
index) and the collected error messages (the `errors` array that
`interpret` allocates; nothing in this version of the interpreter ever
appends to it). -/
structure EvalSt where
  idx : ℕ
  errors : List String
deriving DecidableEq, Repr

/-- The result of a fueled, fallible computation: `none` when the fuel
ran out (divergence when it holds for every fuel), a thrown JS `Error`
message, or a value. -/
def OptExc (α : Type) : Type := Option (Except String α)

/-- Sequencing for `OptExc`. -/
def bindE {α β : Type} : OptExc α → (α → OptExc β) → OptExc β
  | none, _ => none
  | some (.error msg), _ => some (.error msg)
  | some (.ok a), f => f a

/-- A successful `OptExc` result. -/
def okE {α : Type} (a : α) : OptExc α := some (.ok a)

/-- A thrown JS error. -/
def throwE {α : Type} (msg : String) : OptExc α := some (.error msg)

/-- The random provider capability `numberBetween(min, max)`,
abstracted as a function of the call index and the two inclusive
bounds. -/
def RandomProvider : Type := ℕ → ℤ → ℤ → ℤ

/-- The `numberBetween` contract: an integer in the inclusive range,
whenever the range is nonempty. -/
def RngOk (rng : RandomProvider) : Prop :=
  ∀ i lo hi, lo ≤ hi → lo ≤ rng i lo hi ∧ rng i lo hi ≤ hi

/-- Conversion of an evaluated side count to the integer handed to the
random provider; side counts always arrive here already rounded, so
the floor is exact (non-finite numbers are outside the provider's
contract and are mapped to 0). -/
def Value.toProviderInt : Value → ℤ
  | .num q => q.floor
  | _ => 0

/-- Error message of `expectChildCount` (interpreter line 365). -/
def expectMsg (t : NodeType) (count found : ℕ) : String :=
  pre ++ t.render ++ mid ++ toString count ++ mid2 ++ toString found ++ dot
where
  pre : String := "Expected "
  mid : String := " node to have "
  mid2 : String := " children, but found "
  dot : String := "."

/-- Thrown when `evaluate` receives a null node reference. -/
def nullNodeMsg : String := "Null node reference found."

/-- Thrown by `findLeftmostDiceNode` on a childless non-dice node. -/
def missingDiceMsg : String := "Missing dice node."

/-- Thrown by `evaluateComparison` on a non-comparison node type. -/
def unknownCmpMsg : String := "Unrecognized comparison operator."

/-- Thrown by `evaluate` on a node type outside the dispatch (the
embedded `NodeType` is closed, so this is unreachable, but kept for
shape). -/
def unknownNodeMsg : String := "Unrecognized node."

/-- Prefix of the unknown-function error. -/
def unknownFnMsg : String := "Unknown function: "

/-- `expectChildCount`: throws when the node has fewer children than
expected (more are allowed). -/
def expectCC (e : Node) (count : ℕ) : OptExc Unit :=
  if e.childCount < count then throwE (expectMsg e.type count e.childCount)
  else okE ()

/-- The type of the evaluation callback threaded through the helper
functions: one step down in fuel of the main `evaluate`. -/
def EvalFn : Type := Node → EvalSt → OptExc (Value × Node × EvalSt)

/-- Evaluate child `i` of a node and write the updated child back
(a JS out-of-range child is `undefined`, on which `evaluate` throws
its null-reference error). -/
def evalChildAt (ev : EvalFn) (e : Node) (i : ℕ) (st : EvalSt) :
    OptExc (Value × Node × EvalSt) :=
  match e.getChild i with
  | none => throwE nullNodeMsg
  | some c => bindE (ev c st) fun r => okE (r.1, e.setChildAt i r.2.1, r.2.2)

/-- `evaluateDiceRoll` (lines 103-108): the memoized value unless the
die is dropped, in which case 0. -/
def evalDiceRollValue (e : Node) : Value :=
  if jsStrictEq (e.getAttr kDrop) (.str sYes) then Value.ofInt 0
  else e.getAttr kValue

/-- `evaluateComparison` (lines 91-101): compares the given left-hand
value against the single evaluated child of the comparison node. -/
def evalCmp (ev : EvalFn) (lhs : Value) (e : Node) (st : EvalSt) :
    OptExc (Bool × Node × EvalSt) :=
  bindE (expectCC e 1) fun _ =>
  match e.type with
  | .Equal => bindE (evalChildAt ev e 0 st) fun r => okE (jsStrictEq lhs r.1, r.2.1, r.2.2)
  | .Greater => bindE (evalChildAt ev e 0 st) fun r => okE (jsGt lhs r.1, r.2.1, r.2.2)
  | .GreaterOrEqual => bindE (evalChildAt ev e 0 st) fun r => okE (jsGe lhs r.1, r.2.1, r.2.2)
  | .Less => bindE (evalChildAt ev e 0 st) fun r => okE (jsLt lhs r.1, r.2.1, r.2.2)
  | .LessOrEqual => bindE (evalChildAt ev e 0 st) fun r => okE (jsLe lhs r.1, r.2.1, r.2.2)
  | _ => throwE unknownCmpMsg

/-- `findLeftmostDiceNode` (lines 295-305): descend into the first
child, evaluating each child passed through, until a Dice node is
found; returns the descent depth together with the updated tree (the
JS function returns a live reference to the dice subtree).  The
descent depth is bounded by the fuel. -/
def flm (ev : EvalFn) : ℕ → Node → EvalSt → OptExc (ℕ × Node × EvalSt)
  | fuel, e, st =>
    if e.type = .Dice then okE (0, e, st)
    else
      match fuel with
      | 0 => none
      | fuel + 1 =>
        if e.childCount < 1 then throwE missingDiceMsg
        else
          match e.getChild 0 with
          | none => throwE nullNodeMsg
          | some c =>
            bindE (ev c st) fun r =>
            bindE (flm ev fuel r.2.1 r.2.2) fun q =>
            okE (q.1 + 1, e.setChildAt 0 q.2.1, q.2.2)

/-- The number of iterations of the dice-rolling `for` loop for a
rounded roll count: a finite count iterates that many times (0 when
negative), `NaN` and `-Infinity` never satisfy `x < num`, and
`Infinity` makes the JS loop run forever (`none`). -/
def iterCount : Value → Option ℕ
  | .num q => some q.ceil.toNat
  | .inf => none
  | _ => some 0

/-- One freshly rolled die node, as built by `createDiceRoll`
(lines 330-338): a DiceRoll node carrying the rolled value and
`drop = "no"`. -/
def mkRollNode (r : ℤ) : Node :=
  .mk .DiceRoll [] [(kValue, Value.ofInt r), (kDrop, .str sNo)]

/-- The dice-rolling loop of `evaluateDice` (lines 119-123): each
iteration draws via `createDiceRoll` from the sides node — the fate
sentinel rolls in [-1, 1], otherwise the sides node is re-evaluated
and rounded and the roll is in [1, sides] — then the freshly created
DiceRoll child is evaluated and added to the total. -/
def rollLoop (rng : RandomProvider) (ev : EvalFn) :
    Node → ℕ → List Node → Value → EvalSt → OptExc (List Node × Value × Node × EvalSt)
  | sides, 0, acc, total, st => okE (acc, total, sides, st)
  | sides, k + 1, acc, total, st =>
    if jsStrictEq (sides.getAttr kValue) (.str sFate) then
      let die := mkRollNode (rng st.idx (-1) 1)
      bindE (ev die { st with idx := st.idx + 1 }) fun r =>
      rollLoop rng ev sides k (acc ++ [r.2.1]) (jsAdd total r.1) r.2.2
    else
      bindE (ev sides st) fun s =>
      let die := mkRollNode (rng s.2.2.idx 1 (jsRound s.1).toProviderInt)
      bindE (ev die { s.2.2 with idx := s.2.2.idx + 1 }) fun r =>
      rollLoop rng ev s.2.1 k (acc ++ [r.2.1]) (jsAdd total r.1) r.2.2

/-- `evaluateGroup` (lines 136-142): sum of all evaluated children. -/
def groupLoop (ev : EvalFn) : Node → ℕ → ℕ → Value → EvalSt → OptExc (Value × Node × EvalSt)
  | e, _, 0, total, st => okE (total, e, st)
  | e, i, rem + 1, total, st =>
    bindE (evalChildAt ev e i st) fun r =>
    groupLoop ev r.2.1 (i + 1) rem (jsAdd total r.1) r.2.2

/-- The child-evaluation loop of the comparison node types
(lines 80-82): evaluates every child in order for its side effects. -/
def cmpKidsLoop (ev : EvalFn) : Node → ℕ → ℕ → EvalSt → OptExc (Node × EvalSt)
  | e, _, 0, st => okE (e, st)
  | e, i, rem + 1, st =>
    bindE (evalChildAt ev e i st) fun r =>
    cmpKidsLoop ev r.2.1 (i + 1) rem r.2.2

/-- Modelled from the spec: the names in `DefaultFunctionDefinitions`
(interpreter/default-function-definitions is not among the provided
sources; the README and spec list the built-ins `abs`, `ceil`,
`floor`, `round`, `sqrt`). -/
def fnNames : List String := [fAbs, fCeil, fFloor, fRound, fSqrt]
where
  fAbs : String := "abs"
  fCeil : String := "ceil"
  fFloor : String := "floor"
  fRound : String := "round"
  fSqrt : String := "sqrt"

/-- Modelled from the spec: each default function evaluates the first
argument of the call node and applies the matching `Math` operation.
Square roots of non-squares are irrational and are mapped to `NaN` in
the rational model (no claim exercises them). -/
def applyDefaultFn (nm : String) (v : Value) : Value :=
  if nm = fnNames.fAbs then
    match v.toNumber with
    | .num q => .num ⟨|q.n|, q.d⟩
    | .inf => .inf
    | .negInf => .inf
    | _ => .nan
  else if nm = fnNames.fCeil then
    match v.toNumber with
    | .num q => Value.ofInt q.ceil
    | .inf => .inf
    | .negInf => .negInf
    | _ => .nan
  else if nm = fnNames.fFloor then
    match v.toNumber with
    | .num q => Value.ofInt q.floor
    | .inf => .inf
    | .negInf => .negInf
    | _ => .nan
  else if nm = fnNames.fRound then jsRound v
  else
    match v.toNumber with
    | .num q =>
      if q.n < 0 then .nan
      else
        let m := (q.n * q.d).toNat
        let r := Nat.sqrt m
        if r * r = m then .num ⟨(r : ℤ), q.d⟩ else .nan
    | .inf => .inf
    | _ => .nan

/-- Insertion step of the stable sort by rolled value: descend while
the continuation predicate keeps the existing element strictly in
front. -/
def insPair (cont : Node → Node → Bool) (x : ℕ × Node) :
    List (ℕ × Node) → List (ℕ × Node)
  | [] => [x]
  | y :: ys => if cont x.2 y.2 then y :: insPair cont x ys else x :: y :: ys

/-- Stable insertion sort over index-tagged nodes (the ECMAScript
`Array.prototype.sort` is stable and sorts according to the
comparator). -/
def sortPairs (cont : Node → Node → Bool) : List (ℕ × Node) → List (ℕ × Node)
  | [] => []
  | x :: xs => insPair cont x (sortPairs cont xs)

/-- The ascending comparator `(a, b) => a.value - b.value`: an already
placed element stays in front of the inserted one exactly when its
value is strictly smaller (equal values keep original order —
stability; a `NaN` comparison result counts as equal, as in the
ECMAScript sort). -/
def contAsc (x y : Node) : Bool := jsLt (y.getAttr kValue) (x.getAttr kValue)

/-- The descending comparator `(a, b) => b.value - a.value`. -/
def contDesc (x y : Node) : Bool := jsLt (x.getAttr kValue) (y.getAttr kValue)

/-- The child-collecting and -evaluating loop of `getSortedDiceRolls`
(lines 311-315): evaluates every child in order, accumulating the
total. -/
def collectRolls (ev : EvalFn) : Node → ℕ → ℕ → Value → EvalSt → OptExc (Node × Value × EvalSt)
  | d, _, 0, total, st => okE (d, total, st)
  | d, i, rem + 1, total, st =>
    bindE (evalChildAt ev d i st) fun r =>
    collectRolls ev r.2.1 (i + 1) rem (jsAdd total r.1) r.2.2

/-- `getSortedDiceRolls` (lines 307-328): evaluate and sum all
children, then stably sort them (tagged with their original position)
by value in the given direction.  A direction other than "descending"
or "ascending" leaves the comparator undefined; the default ECMAScript
sort then compares the string rendering of the nodes, which is the
same for all of them, so the stable sort keeps the original order. -/
def sortedRollsE (ev : EvalFn) (dice : Node) (direction : Value) (st : EvalSt) :
    OptExc (Node × List (ℕ × Node) × Value × EvalSt) :=
  bindE (collectRolls ev dice 0 dice.childCount (Value.ofInt 0) st) fun r =>
  okE (r.1,
    (if jsStrictEq direction (.str sDescending) then
      sortPairs contDesc ((List.range r.1.childCount).zip r.1.children)
     else if jsStrictEq direction (.str sAscending) then
      sortPairs contAsc ((List.range r.1.childCount).zip r.1.children)
     else (List.range r.1.childCount).zip r.1.children),
    r.2.1, r.2.2)

/-- The marking loop of `evaluateKeep` (lines 187-197): the first
`countTotal` rolls in sorted order are kept (`drop = "no"`) and their
values totalled, the rest are dropped. -/
def markKeep (countTotal : Value) : List (ℕ × Node) → ℕ → Value → List (ℕ × Node) × Value
  | [], _, total => ([], total)
  | (i, nd) :: rest, count, total =>
    if jsLt (Value.ofInt (count : ℤ)) countTotal then
      let res := markKeep countTotal rest (count + 1) (jsAdd total (nd.getAttr kValue))
      ((i, nd.setAttr kDrop (.str sNo)) :: res.1, res.2)
    else
      let res := markKeep countTotal rest (count + 1) total
      ((i, nd.setAttr kDrop (.str sYes)) :: res.1, res.2)

/-- The marking loop of `evaluateDrop` (lines 209-219): the first
`countTotal` rolls in sorted order are dropped, the rest are kept and
their values totalled. -/
def markDrop (countTotal : Value) : List (ℕ × Node) → ℕ → Value → List (ℕ × Node) × Value
  | [], _, total => ([], total)
  | (i, nd) :: rest, count, total =>
    if jsLt (Value.ofInt (count : ℤ)) countTotal then
      let res := markDrop countTotal rest (count + 1) total
      ((i, nd.setAttr kDrop (.str sYes)) :: res.1, res.2)
    else
      let res := markDrop countTotal rest (count + 1) (jsAdd total (nd.getAttr kValue))
      ((i, nd.setAttr kDrop (.str sNo)) :: res.1, res.2)

/-- Write the (position-tagged, mutated) rolls back into the dice
node's child list at their original positions (in JS the sorted array
holds live references, so the drop marks land on the children in
place). -/
def applyMarks (dice : Node) (asgn : List (ℕ × Node)) : Node :=
  .mk dice.type (asgn.foldl (fun cs p => cs.set p.1 p.2) dice.children) dice.attrs

/-- The explosion `while` loop of `evaluateExplode` (lines 165-171):
while the optional condition matches the current die value, or the
value equals the sides attribute, roll a new die (in [-1,1] for the
fate sentinel, else in [1, round(sides)]), evaluate it, subtract one
when penetrating, add it to the total and collect it.  The loop is
unbounded in JS and consumes fuel here. -/
def explodeWhile (rng : RandomProvider) (ev : EvalFn) :
    ℕ → Option Node → Value → Bool → Value → Value → List Node → EvalSt →
    OptExc (Value × Option Node × List Node × EvalSt)
  | 0, _, _, _, _, _, _, _ => none
  | w + 1, cond, sides, pen, dieValue, total, acc, st =>
    bindE
      (match cond with
       | some c =>
         bindE (evalCmp ev dieValue c st) fun r =>
         okE ((r.1 || jsStrictEq dieValue sides), some r.2.1, r.2.2)
       | none => okE (jsStrictEq dieValue sides, none, st))
      fun t =>
    if t.1 then
      let r :=
        if jsStrictEq sides (.str sFate) then rng t.2.2.idx (-1) 1
        else rng t.2.2.idx 1 (jsRound sides).toProviderInt
      let die := mkRollNode r
      bindE (ev die { t.2.2 with idx := t.2.2.idx + 1 }) fun q =>
      let dv := if pen then jsSub q.1 (Value.ofInt 1) else q.1
      explodeWhile rng ev w t.2.1 sides pen dv (jsAdd total dv) (acc ++ [q.2.1]) q.2.2
    else okE (total, t.2.1, acc, t.2.2)

/-- The per-die loop of `evaluateExplode` (lines 160-172): skip
already dropped dice; evaluate each remaining die, add it to the
total, and run the explosion loop on its value.  The loop bound is the
child count at entry; new rolls are collected separately and appended
after the loop. -/
def explodeOuter (rng : RandomProvider) (ev : EvalFn) (wfuel : ℕ) :
    Option Node → Value → Bool → Node → ℕ → ℕ → Value → List Node → EvalSt →
    OptExc (Value × Option Node × Node × List Node × EvalSt)
  | cond, _, _, dice, _, 0, total, newRolls, st => okE (total, cond, dice, newRolls, st)
  | cond, sides, pen, dice, i, rem + 1, total, newRolls, st =>
    match dice.getChild i with
    | none => throwE nullNodeMsg
    | some die =>
      if jsStrictEq (die.getAttr kDrop) (.str sYes) then
        explodeOuter rng ev wfuel cond sides pen dice (i + 1) rem total newRolls st
      else
        bindE (ev die st) fun r =>
        bindE (explodeWhile rng ev wfuel cond sides pen r.1 (jsAdd total r.1) [] r.2.2) fun q =>
        explodeOuter rng ev wfuel q.2.1 sides pen (dice.setChildAt i r.2.1) (i + 1) rem
          q.1 (newRolls ++ q.2.2.1) q.2.2.2

/-- The reroll `while` loop of `evaluateReroll` (lines 275-278): while
the optional condition matches the current value, or the value is 1,
draw a replacement value via `createDiceRollValue`; the "once" variant
stops after the first replacement. -/
def rerollWhile (rng : RandomProvider) (ev : EvalFn) :
    ℕ → Option Node → Value → Bool → Value → EvalSt →
    OptExc (Value × Option Node × EvalSt)
  | 0, _, _, _, _, _ => none
  | w + 1, cond, sides, once, dieValue, st =>
    bindE
      (match cond with
       | some c =>
         bindE (evalCmp ev dieValue c st) fun r =>
         okE ((r.1 || jsStrictEq dieValue (Value.ofInt 1)), some r.2.1, r.2.2)
       | none => okE (jsStrictEq dieValue (Value.ofInt 1), none, st))
      fun t =>
    if t.1 then
      let r :=
        if jsStrictEq sides (.str sFate) then rng t.2.2.idx (-1) 1
        else rng t.2.2.idx 1 (jsRound sides).toProviderInt
      let st' := { t.2.2 with idx := t.2.2.idx + 1 }
      if once then okE (Value.ofInt r, t.2.1, st')
      else rerollWhile rng ev w t.2.1 sides once (Value.ofInt r) st'
    else okE (dieValue, t.2.1, t.2.2)

/-- The per-die loop of `evaluateReroll` (lines 271-281): skip dropped
dice; run the reroll loop on each remaining die's value, store the
final value back into the die, and add it to the total. -/
def rerollOuter (rng : RandomProvider) (ev : EvalFn) (wfuel : ℕ) :
    Option Node → Value → Bool → Node → ℕ → ℕ → Value → EvalSt →
    OptExc (Value × Option Node × Node × EvalSt)
  | cond, _, _, dice, _, 0, total, st => okE (total, cond, dice, st)
  | cond, sides, once, dice, i, rem + 1, total, st =>
    match dice.getChild i with
    | none => throwE nullNodeMsg
    | some die =>
      if jsStrictEq (die.getAttr kDrop) (.str sYes) then
        rerollOuter rng ev wfuel cond sides once dice (i + 1) rem total st
      else
        bindE (ev die st) fun r =>
        bindE (rerollWhile rng ev wfuel cond sides once r.1 r.2.2) fun q =>
        let die2 := r.2.1.setAttr kValue q.1
        rerollOuter rng ev wfuel q.2.1 sides once (dice.setChildAt i die2) (i + 1) rem
          (jsAdd total q.1) q.2.2

/-- The per-die loop of `evaluateCritical` (lines 245-252): evaluate
each die (dropped ones included), flag it with the `critical`
attribute when the condition matches its value, and add its value to
the total. -/
def critLoop (ev : EvalFn) (type : Value) :
    Node → Node → ℕ → ℕ → Value → EvalSt → OptExc (Value × Node × Node × EvalSt)
  | cond, dice, _, 0, total, st => okE (total, cond, dice, st)
  | cond, dice, i, rem + 1, total, st =>
    match dice.getChild i with
    | none => throwE nullNodeMsg
    | some die =>
      bindE (ev die st) fun r =>
      bindE (evalCmp ev r.1 cond r.2.2) fun q =>
      let die2 := if q.1 then r.2.1.setAttr kCritical type else r.2.1
      critLoop ev type q.2.1 (dice.setChildAt i die2) (i + 1) rem (jsAdd total r.1) q.2.2

/-- Evaluate the condition operand (child 1) of a modifier node when
present, as `evaluateExplode`, `evaluateReroll` and `evaluateCritical`
do before touching the dice (the live reference is modelled by
returning the condition node next to the updated parent). -/
def evalCondChild (ev : EvalFn) (e : Node) (st : EvalSt) :
    OptExc (Option Node × Node × EvalSt) :=
  if 1 < e.childCount then
    match e.getChild 1 with
    | none => throwE nullNodeMsg
    | some c =>
      bindE (ev c st) fun r =>
      okE (some r.2.1, e.setChildAt 1 r.2.1, r.2.2)
  else okE (none, e, st)

/-- Write the final condition node of a modifier loop back into
child 1 of the modifier node (it was a live reference in JS). -/
def putCondBack (e : Node) : Option Node → Node
  | none => e
  | some c => e.setChildAt 1 c

/-- `evaluateExplode` (lines 144-176). -/
def evaluateExplode (rng : RandomProvider) (ev : EvalFn) (fuel : ℕ) (e : Node) (st : EvalSt) :
    OptExc (Value × Node × EvalSt) :=
  bindE (expectCC e 1) fun _ =>
  bindE (flm ev fuel e st) fun f =>
  let e1 := f.2.1
  let pen := jsStrictEq (e1.getAttr kPenetrate) (.str sYes)
  bindE (evalCondChild ev e1 f.2.2) fun c =>
  let e2 := c.2.1
  match e2.subtreeAt0 f.1 with
  | none => throwE nullNodeMsg
  | some dice0 =>
    bindE (ev dice0 c.2.2) fun d =>
    let dice1 := d.2.1
    let sides := dice1.getAttr kSides
    bindE (explodeOuter rng ev fuel c.1 sides pen dice1 0 dice1.childCount
        (Value.ofInt 0) [] d.2.2) fun q =>
    let dice2 := q.2.2.1
    let dice3 := Node.mk dice2.type (dice2.children ++ q.2.2.2.1) dice2.attrs
    okE (q.1, putCondBack (e2.updateAt0 f.1 dice3) q.2.1, q.2.2.2.2)

/-- `evaluateKeep` (lines 178-199). -/
def evaluateKeep (ev : EvalFn) (fuel : ℕ) (e : Node) (st : EvalSt) :
    OptExc (Value × Node × EvalSt) :=
  bindE (expectCC e 1) fun _ =>
  bindE (flm ev fuel e st) fun f =>
  let e1 := f.2.1
  bindE
    (if 1 < e1.childCount then evalChildAt ev e1 1 f.2.2
     else okE (Value.ofInt 1, e1, f.2.2)) fun c =>
  let e2 := c.2.1
  let type := e2.getAttr kType
  let dir : Value :=
    if jsStrictEq type (.str sLowest) then .str sAscending else .str sDescending
  match e2.subtreeAt0 f.1 with
  | none => throwE nullNodeMsg
  | some dice0 =>
    bindE (ev dice0 c.2.2) fun d =>
    bindE (sortedRollsE ev d.2.1 dir d.2.2) fun s =>
    let marked := markKeep c.1 s.2.1 0 (Value.ofInt 0)
    okE (marked.2, e2.updateAt0 f.1 (applyMarks s.1 marked.1), s.2.2.2)

/-- `evaluateDrop` (lines 201-221). -/
def evaluateDrop (ev : EvalFn) (fuel : ℕ) (e : Node) (st : EvalSt) :
    OptExc (Value × Node × EvalSt) :=
  bindE (expectCC e 1) fun _ =>
  bindE (flm ev fuel e st) fun f =>
  let e1 := f.2.1
  bindE
    (if 1 < e1.childCount then evalChildAt ev e1 1 f.2.2
     else okE (Value.ofInt 1, e1, f.2.2)) fun c =>
  let e2 := c.2.1
  let type := e2.getAttr kType
  let dir : Value :=
    if jsStrictEq type (.str sLowest) then .str sAscending else .str sDescending
  match e2.subtreeAt0 f.1 with
  | none => throwE nullNodeMsg
  | some dice0 =>
    bindE (ev dice0 c.2.2) fun d =>
    bindE (sortedRollsE ev d.2.1 dir d.2.2) fun s =>
    let marked := markDrop c.1 s.2.1 0 (Value.ofInt 0)
    okE (marked.2, e2.updateAt0 f.1 (applyMarks s.1 marked.1), s.2.2.2)

/-- `evaluateCritical` (lines 223-255). -/
def evaluateCritical (ev : EvalFn) (fuel : ℕ) (e : Node) (st : EvalSt) :
    OptExc (Value × Node × EvalSt) :=
  bindE (expectCC e 1) fun _ =>
  bindE (flm ev fuel e st) fun f =>
  let e1 := f.2.1
  let type := e1.getAttr kType
  match e1.subtreeAt0 f.1 with
  | none => throwE nullNodeMsg
  | some dice0 =>
    bindE
      (if 1 < e1.childCount then
        match e1.getChild 1 with
        | none => throwE nullNodeMsg
        | some c =>
          bindE (ev c f.2.2) fun r =>
          okE ((some r.2.1, r.2.1), e1.setChildAt 1 r.2.1, r.2.2)
       else
        if jsStrictEq type (.str sSuccess) then
          bindE (expectCC dice0 2) fun _ =>
          okE ((none, Node.mk .Equal [Node.mk .Integer [] [(kValue, dice0.getAttr kSides)]] []),
            e1, f.2.2)
        else
          okE ((none, Node.mk .Equal [Node.mk .Integer [] [(kValue, Value.ofInt 1)]] []),
            e1, f.2.2)) fun c =>
    let e2 := c.2.1
    match e2.subtreeAt0 f.1 with
    | none => throwE nullNodeMsg
    | some diceB =>
      bindE (ev diceB c.2.2) fun d =>
      bindE (critLoop ev type c.1.2 d.2.1 0 d.2.1.childCount (Value.ofInt 0) d.2.2) fun q =>
      let back := e2.updateAt0 f.1 q.2.2.1
      okE (q.1, (if c.1.1.isSome then back.setChildAt 1 q.2.1 else back), q.2.2.2)

/-- `evaluateReroll` (lines 257-284). -/
def evaluateReroll (rng : RandomProvider) (ev : EvalFn) (fuel : ℕ) (e : Node) (st : EvalSt) :
    OptExc (Value × Node × EvalSt) :=
  bindE (expectCC e 1) fun _ =>
  bindE (flm ev fuel e st) fun f =>
  let e1 := f.2.1
  let once := jsStrictEq (e1.getAttr kOnce) (.str sYes)
  bindE (evalCondChild ev e1 f.2.2) fun c =>
  let e2 := c.2.1
  match e2.subtreeAt0 f.1 with
  | none => throwE nullNodeMsg
  | some dice0 =>
    bindE (ev dice0 c.2.2) fun d =>
    let dice1 := d.2.1
    let sides := dice1.getAttr kSides
    bindE (rerollOuter rng ev fuel c.1 sides once dice1 0 dice1.childCount
        (Value.ofInt 0) d.2.2) fun q =>
    okE (q.1, putCondBack (e2.updateAt0 f.1 q.2.2.1) q.2.1, q.2.2.2)

/-- `evaluateSort` (lines 286-293): find the dice node (without
evaluating it as a whole), sort its evaluated children by the
`direction` attribute, and replace the child list by the sorted
order; the returned value is the collected total. -/
def evaluateSort (ev : EvalFn) (fuel : ℕ) (e : Node) (st : EvalSt) :
    OptExc (Value × Node × EvalSt) :=
  bindE (expectCC e 1) fun _ =>
  bindE (flm ev fuel e st) fun f =>
  let e1 := f.2.1
  match e1.subtreeAt0 f.1 with
  | none => throwE nullNodeMsg
  | some dice0 =>
    bindE (sortedRollsE ev dice0 (e1.getAttr kDirection) f.2.2) fun s =>
    let dice2 := Node.mk s.1.type (s.2.1.map Prod.snd) s.1.attrs
    okE (s.2.2.1, e1.updateAt0 f.1 dice2, s.2.2.2)

/-- `evaluateFunction` (lines 127-134) with the default function
table (modelled from the spec, see `fnNames`): unknown names throw,
known names evaluate the first argument and apply the function. -/
def evaluateFunction (ev : EvalFn) (e : Node) (st : EvalSt) :
    OptExc (Value × Node × EvalSt) :=
  match e.getAttr kName with
  | .str nm =>
    if nm ∈ fnNames then
      match e.getChild 0 with
      | none => throwE nullNodeMsg
      | some c =>
        bindE (ev c st) fun r =>
        okE (applyDefaultFn nm r.1, e.setChildAt 0 r.2.1, r.2.2)
    else throwE (unknownFnMsg ++ nm)
  | v => throwE (unknownFnMsg ++ v.render)

/-- `evaluateDice` (lines 110-125): round the evaluated count
operand, evaluate the sides operand into the `sides` attribute, clear
the children and run the rolling loop. -/
def evaluateDice (rng : RandomProvider) (ev : EvalFn) (e : Node) (st : EvalSt) :
    OptExc (Value × Node × EvalSt) :=
  bindE (expectCC e 2) fun _ =>
  bindE (evalChildAt ev e 0 st) fun n =>
  let numV := jsRound n.1
  let e1 := n.2.1
  match e1.getChild 1 with
  | none => throwE nullNodeMsg
  | some sides0 =>
    bindE (ev sides0 n.2.2) fun s =>
    let e2 := ((e1.setChildAt 1 s.2.1).setAttr kSides s.1).clearChildren
    match iterCount numV with
    | none => none
    | some cnt =>
      bindE (rollLoop rng ev s.2.1 cnt [] (Value.ofInt 0) s.2.2) fun r =>
      okE (r.2.1, Node.mk e2.type r.1 e2.attrs, r.2.2.2)

/-- One step of `evaluate` (lines 29-89): DiceRoll nodes are special
cased, an already-truthy `value` attribute short-circuits (the
memoization), otherwise the node is dispatched on its type and the
computed value is stored into the `value` attribute. -/
def evalStep (rng : RandomProvider) (ev : EvalFn) (fuel : ℕ) (e : Node) (st : EvalSt) :
    OptExc (Value × Node × EvalSt) :=
  if e.type = .DiceRoll then okE (evalDiceRollValue e, e, st)
  else if (e.getAttr kValue).truthy then okE (e.getAttr kValue, e, st)
  else
    bindE
      (match e.type with
       | .Add =>
         bindE (expectCC e 2) fun _ =>
         bindE (evalChildAt ev e 0 st) fun a =>
         bindE (evalChildAt ev a.2.1 1 a.2.2) fun b =>
         okE (jsAdd a.1 b.1, b.2.1, b.2.2)
       | .Subtract =>
         bindE (expectCC e 2) fun _ =>
         bindE (evalChildAt ev e 0 st) fun a =>
         bindE (evalChildAt ev a.2.1 1 a.2.2) fun b =>
         okE (jsSub a.1 b.1, b.2.1, b.2.2)
       | .Multiply =>
         bindE (expectCC e 2) fun _ =>
         bindE (evalChildAt ev e 0 st) fun a =>
         bindE (evalChildAt ev a.2.1 1 a.2.2) fun b =>
         okE (jsMul a.1 b.1, b.2.1, b.2.2)
       | .Divide =>
         bindE (expectCC e 2) fun _ =>
         bindE (evalChildAt ev e 0 st) fun a =>
         bindE (evalChildAt ev a.2.1 1 a.2.2) fun b =>
         okE (jsDiv a.1 b.1, b.2.1, b.2.2)
       | .Modulo =>
         bindE (expectCC e 2) fun _ =>
         bindE (evalChildAt ev e 0 st) fun a =>
         bindE (evalChildAt ev a.2.1 1 a.2.2) fun b =>
         okE (jsMod a.1 b.1, b.2.1, b.2.2)
       | .Exponent =>
         bindE (expectCC e 2) fun _ =>
         bindE (evalChildAt ev e 0 st) fun a =>
         bindE (evalChildAt ev a.2.1 1 a.2.2) fun b =>
         okE (jsPow a.1 b.1, b.2.1, b.2.2)
       | .Negate =>
         bindE (expectCC e 1) fun _ =>
         bindE (evalChildAt ev e 0 st) fun a =>
         okE (jsNeg a.1, a.2.1, a.2.2)
       | .DiceSides => okE (e.getAttr kValue, e, st)
       | .Dice => evaluateDice rng ev e st
       | .Integer => okE (e.getAttr kValue, e, st)
       | .Function => evaluateFunction ev e st
       | .Group => groupLoop ev e 0 e.childCount (Value.ofInt 0) st
       | .Explode => evaluateExplode rng ev fuel e st
       | .Keep => evaluateKeep ev fuel e st
       | .Drop => evaluateDrop ev fuel e st
       | .Critical => evaluateCritical ev fuel e st
       | .Reroll => evaluateReroll rng ev fuel e st
       | .Sort => evaluateSort ev fuel e st
       | .Equal =>
         bindE (cmpKidsLoop ev e 0 e.childCount st) fun r =>
         okE (Value.ofInt 0, r.1, r.2)
       | .Greater =>
         bindE (cmpKidsLoop ev e 0 e.childCount st) fun r =>
         okE (Value.ofInt 0, r.1, r.2)
       | .GreaterOrEqual =>
         bindE (cmpKidsLoop ev e 0 e.childCount st) fun r =>
         okE (Value.ofInt 0, r.1, r.2)
       | .Less =>
         bindE (cmpKidsLoop ev e 0 e.childCount st) fun r =>
         okE (Value.ofInt 0, r.1, r.2)
       | .LessOrEqual =>
         bindE (cmpKidsLoop ev e 0 e.childCount st) fun r =>
         okE (Value.ofInt 0, r.1, r.2)
       | .DiceRoll => okE (evalDiceRollValue e, e, st))
      fun v =>
    okE (v.1, v.2.1.setAttr kValue v.1, v.2.2)

/-- `evaluate` with explicit fuel for the unbounded parts: `none`
exactly when the computation does not finish within the fuel. -/
def evalCore (rng : RandomProvider) : ℕ → Node → EvalSt → OptExc (Value × Node × EvalSt)
  | 0, _, _ => none
  | fuel + 1, e, st => evalStep rng (evalCore rng fuel) fuel e st

/-- `countSuccesses` (lines 355-358): not implemented in the source,
constantly 0. -/
def countSuccesses (_e : Node) : ℤ := 0

/-- `countFailures` (lines 360-363): not implemented in the source,
constantly 0. -/
def countFailures (_e : Node) : ℤ := 0

/-- The `DiceResult` produced by `interpret`. -/
structure DiceResultM where
  tree : Node
  total : Value
  successes : ℤ
  fails : ℤ
  errors : List String

/-- `interpret` (lines 20-27): deep-copy the input tree, evaluate the
copy against a fresh error list, count successes and failures, and
package the result.  The second component of the returned pair is the
random-provider call index after the call, for sequencing repeated
interpretations over one stream. -/
def interpretF (rng : RandomProvider) (fuel : ℕ) (e : Node) (startIdx : ℕ) :
    OptExc (DiceResultM × ℕ) :=
  let exp := e.copy
  bindE (evalCore rng fuel exp { idx := startIdx, errors := [] }) fun r =>
  okE ({ tree := r.2.1, total := r.1, successes := countSuccesses r.2.1,
         fails := countFailures r.2.1, errors := r.2.2.errors }, r.2.2.idx)

/-- The lexer token types of lexer/token-type. -/
inductive TokenType where
  | Integer
  | Identifier
  | Plus
  | Minus
  | Asterisk
  | Slash
  | Percent
  | DoubleAsterisk
  | Equals
  | Greater
  | GreaterOrEqual
  | Less
  | LessOrEqual
  | ParenthesisOpen
  | ParenthesisClose
  | BraceOpen
  | BraceClose
  | Comma
  | EndOfInput
  | Unknown
deriving DecidableEq, Repr

/-- A lexer token: type tag, source position and raw text. -/
structure Token where
  type : TokenType
  pos : ℕ
  value : String
deriving DecidableEq, Repr

/-- The end-of-input sentinel the lexer yields forever once the input
is exhausted, so the parser can always peek. -/
def endTok : Token := { type := .EndOfInput, pos := 0, value := "" }

/-- The parser state: the remaining token stream and the recorded
parse errors. -/
structure PState where
  toks : List Token
  perrs : List String
deriving Repr

/-- `peekNextToken`. -/
def PState.peek (ps : PState) : Token := ps.toks.headD endTok

/-- `getNextToken`: consume one token (the sentinel once empty). -/
def PState.next (ps : PState) : Token × PState :=
  match ps.toks with
  | [] => (endTok, ps)
  | t :: rest => (t, { ps with toks := rest })

/-- Message recorded by the parser when a specific token type was
expected (the diagnostic text is not observable in any claim). -/
def parseErrMsg (expected : TokenType) (found : Token) : String :=
  pre ++ toString (repr expected) ++ mid ++ toString (repr found.type)
where
  pre : String := "Error. Expected "
  mid : String := " but found "

/-- Modelled from the spec: `BasicParser.expectAndConsume` (the
basic-parser module is not among the provided sources; per the
specification a mismatching token type is recorded as a structured
parse error, and parsing continues with the consumed token). -/
def expectAndConsume (expected : TokenType) (ps : PState) : Token × PState :=
  let r := ps.next
  if r.1.type = expected then r
  else (r.1, { r.2 with perrs := r.2.perrs ++ [parseErrMsg expected r.1] })

/-- Modelled from the spec: `BasicParser.error` records a structured
parse error against the offending token. -/
def recordError (expected : TokenType) (found : Token) (ps : PState) : PState :=
  { ps with perrs := ps.perrs ++ [parseErrMsg expected found] }

/-- `BooleanOperatorMap` (parser lines 5-10). -/
def booleanOperatorMap : TokenType → Option NodeType
  | .Equals => some .Equal
  | .Greater => some .Greater
  | .Less => some .Less
  | .GreaterOrEqual => some .GreaterOrEqual
  | .LessOrEqual => some .LessOrEqual
  | _ => none

/-- `AddOperatorMap` (parser lines 12-14). -/
def addOperatorMap : TokenType → Option NodeType
  | .Plus => some .Add
  | .Minus => some .Subtract
  | _ => none

/-- `MultiOperatorMap` (parser lines 16-20): the exponent operator
sits in the same map — and hence the same precedence level and
left-associative loop — as multiply, divide and modulo. -/
def multiOperatorMap : TokenType → Option NodeType
  | .DoubleAsterisk => some .Exponent
  | .Asterisk => some .Multiply
  | .Slash => some .Divide
  | .Percent => some .Modulo
  | _ => none

/-- String constant: the identifier "d". -/
def sD : String := "d"

/-- String constant: the identifier "dF". -/
def sDF : String := "dF"

/-- The entry points of the recursive-descent `DiceParser`, packaged
as one fueled function (`parseCore`); the loop entries carry the root
built so far. -/
inductive PCall where
  | expr
  | simple
  | term
  | factor
  | fnCall
  | integer
  | bracket
  | group
  | diceRoll (pre : Option Node)
  | simpleDice (pre : Option Node)
  | termLoop (root : Node)
  | simpleLoop (root : Node)
  | fnArgs (root : Node)
  | groupItems (root : Node)

/-- The recursive-descent `DiceParser` (parser part_002), transcribed
method by method; the fuel bounds the recursion depth, and `none` is a
failure path of the original that no verified claim exercises (the JS
would return `undefined` from `parseFactor` after recording the
error). -/
def parseCore : ℕ → PCall → PState → Option (Node × PState)
  | 0, _, _ => none
  | fuel + 1, call, ps =>
    match call with
    | .expr =>
      match parseCore fuel .simple ps with
      | none => none
      | some (root, ps1) =>
        match booleanOperatorMap ps1.peek.type with
        | some nt =>
          let ps2 := ps1.next.2
          match parseCore fuel .simple ps2 with
          | none => none
          | some (rhs, ps3) =>
            some (((Factory.create nt).addChild root).addChild rhs, ps3)
        | none => some (root, ps1)
    | .simple =>
      let t := ps.peek
      let ps0 := if (addOperatorMap t.type).isSome then ps.next.2 else ps
      match parseCore fuel .term ps0 with
      | none => none
      | some (root0, ps1) =>
        let root1 :=
          if t.type = .Minus then (Factory.create .Negate).addChild root0 else root0
        parseCore fuel (.simpleLoop root1) ps1
    | .simpleLoop root =>
      match addOperatorMap ps.peek.type with
      | some nt =>
        let ps1 := ps.next.2
        match parseCore fuel .term ps1 with
        | none => none
        | some (rhs, ps2) =>
          parseCore fuel (.simpleLoop (((Factory.create nt).addChild root).addChild rhs)) ps2
      | none => some (root, ps)
    | .term =>
      match parseCore fuel .factor ps with
      | none => none
      | some (root, ps1) => parseCore fuel (.termLoop root) ps1
    | .termLoop root =>
      match multiOperatorMap ps.peek.type with
      | some nt =>
        let ps1 := ps.next.2
        match parseCore fuel .factor ps1 with
        | none => none
        | some (rhs, ps2) =>
          parseCore fuel (.termLoop (((Factory.create nt).addChild root).addChild rhs)) ps2
      | none => some (root, ps)
    | .factor =>
      let t := ps.peek
      match t.type with
      | .Identifier => parseCore fuel .fnCall ps
      | .ParenthesisOpen =>
        match parseCore fuel .bracket ps with
        | none => none
        | some (root, ps1) =>
          if ps1.peek.type = .Identifier then parseCore fuel (.diceRoll (some root)) ps1
          else some (root, ps1)
      | .BraceOpen => parseCore fuel .group ps
      | .Integer =>
        match parseCore fuel .integer ps with
        | none => none
        | some (number, ps1) =>
          if ps1.peek.type = .Identifier then parseCore fuel (.diceRoll (some number)) ps1
          else some (number, ps1)
      | _ => none
    | .fnCall =>
      let r := expectAndConsume .Identifier ps
      let root := (Factory.create .Function).setAttr kName (.str r.1.value)
      let r2 := expectAndConsume .ParenthesisOpen r.2
      if r2.2.peek.type = .ParenthesisClose then
        let r3 := expectAndConsume .ParenthesisClose r2.2
        some (root, r3.2)
      else
        match parseCore fuel .expr r2.2 with
        | none => none
        | some (arg, ps1) =>
          match parseCore fuel (.fnArgs (root.addChild arg)) ps1 with
          | none => none
          | some (root2, ps2) =>
            let r4 := expectAndConsume .ParenthesisClose ps2
            some (root2, r4.2)
    | .fnArgs root =>
      if ps.peek.type = .Comma then
        match parseCore fuel .expr ps.next.2 with
        | none => none
        | some (arg, ps1) => parseCore fuel (.fnArgs (root.addChild arg)) ps1
      else some (root, ps)
    | .integer =>
      let r := ps.next
      some ((Factory.create .Integer).setAttr kValue (strToNumber r.1.value), r.2)
    | .bracket =>
      let ps1 := ps.next.2
      match parseCore fuel .expr ps1 with
      | none => none
      | some (root, ps2) =>
        let r := expectAndConsume .ParenthesisClose ps2
        some (root, r.2)
    | .group =>
      let ps1 := ps.next.2
      let root := Factory.create .Group
      if ps1.peek.type = .BraceClose then
        let r := expectAndConsume .BraceClose ps1
        some (root, r.2)
      else
        match parseCore fuel .expr ps1 with
        | none => none
        | some (item, ps2) =>
          match parseCore fuel (.groupItems (root.addChild item)) ps2 with
          | none => none
          | some (root2, ps3) =>
            let r := expectAndConsume .BraceClose ps3
            some (root2, r.2)
    | .groupItems root =>
      if ps.peek.type = .Comma then
        match parseCore fuel .expr ps.next.2 with
        | none => none
        | some (item, ps1) => parseCore fuel (.groupItems (root.addChild item)) ps1
      else some (root, ps)
    | .diceRoll pre => parseCore fuel (.simpleDice pre) ps
    | .simpleDice pre =>
      let roll : Option (Option Node × PState) :=
        match pre with
        | some r => some (some r, ps)
        | none =>
          match ps.peek.type with
          | .Integer =>
            match parseCore fuel .integer ps with
            | none => none
            | some (n, ps1) => some (some n, ps1)
          | .ParenthesisOpen =>
            match parseCore fuel .bracket ps with
            | none => none
            | some (n, ps1) => some (some n, ps1)
          | _ => none
      match roll with
      | none => none
      | some (none, _) => none
      | some (some rollTimes, ps1) =>
        let r := expectAndConsume .Identifier ps1
        let root := (Factory.create .Dice).addChild rollTimes
        if r.1.value = sD then
          let sidesTok := expectAndConsume .Integer r.2
          some (root.addChild
            ((Factory.create .DiceSides).setAttr kValue (strToNumber sidesTok.1.value)),
            sidesTok.2)
        else if r.1.value = sDF then
          some (root.addChild ((Factory.create .DiceSides).setAttr kValue (.str sFate)), r.2)
        else some (root, r.2)

/-- `DiceParser.parse`: parse a whole expression from a token
stream. -/
def parseTokens (fuel : ℕ) (toks : List Token) : Option (Node × PState) :=
  parseCore fuel .expr { toks := toks, perrs := [] }

/-- An Integer AST node carrying the given value, as the parser
builds it. -/
def intNode (n : ℤ) : Node := Node.mk .Integer [] [(kValue, Value.ofInt n)]

/-- A DiceSides AST node carrying the given side count. -/
def sidesNode (s : ℤ) : Node := Node.mk .DiceSides [] [(kValue, Value.ofInt s)]

/-- The AST of the dice expression `nds`, as the parser builds it. -/
def diceNode (n s : ℤ) : Node := Node.mk .Dice [intNode n, sidesNode s] []

/-- A rolled DiceRoll leaf with a value and a drop flag. -/
def dieN (v : ℤ) (dropped : Bool) : Node :=
  Node.mk .DiceRoll [] [(kValue, Value.ofInt v), (kDrop, .str (if dropped then sYes else sNo))]

theorem evalCore_succ (rng : RandomProvider) (f : ℕ) (e : Node) (st : EvalSt) :
    evalCore rng (f + 1) e st = evalStep rng (evalCore rng f) f e st := rfl

theorem truthy_ofInt (n : ℤ) : (Value.ofInt n).truthy = decide (n ≠ 0) := rfl

theorem evalCore_int (rng : RandomProvider) (f : ℕ) (n : ℤ) (st : EvalSt) :
    evalCore rng (f + 1) (intNode n) st = okE (Value.ofInt n, intNode n, st) := by
  by_cases h : n = 0
  · subst h; rfl
  · simp [evalCore_succ, evalStep, intNode, Node.getAttr, Node.type, Node.attrs, attrLookup,
      truthy_ofInt, h]

theorem evalCore_sides (rng : RandomProvider) (f : ℕ) (s : ℤ) (st : EvalSt) :
    evalCore rng (f + 1) (sidesNode s) st = okE (Value.ofInt s, sidesNode s, st) := by
  by_cases h : s = 0
  · subst h; rfl
  · simp [evalCore_succ, evalStep, sidesNode, Node.getAttr, Node.type, Node.attrs, attrLookup,
      truthy_ofInt, h]

theorem evalCore_die (rng : RandomProvider) (f : ℕ) (v : ℤ) (st : EvalSt) :
    evalCore rng (f + 1) (mkRollNode v) st = okE (Value.ofInt v, mkRollNode v, st) := rfl

theorem jsAdd_ofInt (a b : ℤ) : jsAdd (Value.ofInt a) (Value.ofInt b) = Value.ofInt (a + b) := by
  simp [jsAdd, Value.ofInt, Value.toNumber, JsQ.add, JsQ.ofInt]

theorem jsRound_ofInt (k : ℤ) : jsRound (Value.ofInt k) = Value.ofInt k := by
  have h : Int.fdiv (2 * k + 1) 2 = k := by
    rw [Int.fdiv_eq_ediv _ (by norm_num)]
    omega
  simp [jsRound, Value.ofInt, Value.toNumber, JsQ.round, JsQ.ofInt, h]

theorem toProviderInt_ofInt (k : ℤ) : (Value.ofInt k).toProviderInt = k := by
  simp [Value.toProviderInt, Value.ofInt, JsQ.ofInt, JsQ.floor, Int.fdiv_one]

theorem iterCount_ofInt (n : ℕ) : iterCount (Value.ofInt (n : ℤ)) = some n := by
  simp [iterCount, Value.ofInt, JsQ.ofInt, JsQ.ceil, Int.fdiv_one]

/-- The DiceRoll children produced by rolling `k` dice of `s` sides
starting at provider call index `idx`. -/
def rollKids (rng : RandomProvider) (s : ℤ) (idx : ℕ) (k : ℕ) : List Node :=
  (List.range k).map fun i => mkRollNode (rng (idx + i) 1 s)

/-- The total of those `k` rolls. -/
def rollSum (rng : RandomProvider) (s : ℤ) (idx : ℕ) (k : ℕ) : ℤ :=
  ((List.range k).map fun i => rng (idx + i) 1 s).sum

theorem iterCount_ofInt' (k : ℤ) : iterCount (Value.ofInt k) = some k.toNat := by
  simp [iterCount, Value.ofInt, JsQ.ofInt, JsQ.ceil, Int.fdiv_one]

theorem rollLoop_spec (rng : RandomProvider) (f : ℕ) (s : ℤ) (k : ℕ) :
    ∀ (acc : List Node) (t0 : ℤ) (st : EvalSt),
    rollLoop rng (evalCore rng (f + 1)) (sidesNode s) k acc (Value.ofInt t0) st =
      okE (acc ++ rollKids rng s st.idx k,
           Value.ofInt (t0 + rollSum rng s st.idx k),
           sidesNode s, { st with idx := st.idx + k }) := by
  induction k with
  | zero =>
    intro acc t0 st
    simp [rollLoop, rollKids, rollSum, okE]
  | succ m ih =>
    intro acc t0 st
    rw [rollLoop]
    have hfate : jsStrictEq ((sidesNode s).getAttr kValue) (.str sFate) = false := rfl
    rw [hfate]
    simp only [Bool.false_eq_true, if_false, evalCore_sides rng f s st, bindE, okE,
      jsRound_ofInt, toProviderInt_ofInt, evalCore_die, jsAdd_ofInt]
    rw [ih (acc ++ [mkRollNode (rng st.idx 1 s)]) (t0 + rng st.idx 1 s)
      { st with idx := st.idx + 1 }]
    simp only
    have hshift : ∀ (g : ℕ → ℕ), (List.range (m + 1)).map (fun i => g i) =
        g 0 :: (List.range m).map (fun i => g (i + 1)) := by
      intro g
      rw [List.range_succ_eq_map, List.map_cons, List.map_map]
      rfl
    have hkids : (acc ++ [mkRollNode (rng st.idx 1 s)]) ++ rollKids rng s (st.idx + 1) m =
        acc ++ rollKids rng s st.idx (m + 1) := by
      rw [List.append_assoc]
      congr 1
      show mkRollNode (rng (st.idx + 0) 1 s) :: rollKids rng s (st.idx + 1) m = _
      unfold rollKids
      rw [List.range_succ_eq_map, List.map_cons, List.map_map]
      congr 1
      refine List.map_congr_left ?_
      intro i _
      show mkRollNode (rng (st.idx + 1 + i) 1 s) = mkRollNode (rng (st.idx + (i + 1)) 1 s)
      congr 2
      omega
    have hsum : t0 + rng st.idx 1 s + rollSum rng s (st.idx + 1) m =
        t0 + rollSum rng s st.idx (m + 1) := by
      unfold rollSum
      rw [List.range_succ_eq_map, List.map_cons, List.map_map, List.sum_cons]
      have he : ((List.range m).map (fun i => rng (st.idx + 1 + i) 1 s)) =
          ((List.range m).map ((fun i => rng (st.idx + i) 1 s) ∘ Nat.succ)) := by
        refine List.map_congr_left ?_
        intro i _
        show rng (st.idx + 1 + i) 1 s = rng (st.idx + (i + 1)) 1 s
        congr 1
        omega
      rw [← he]
      have hz : st.idx + 0 = st.idx := by omega
      rw [hz]
      omega
    rw [hkids, hsum]
    have h3 : st.idx + 1 + m = st.idx + (m + 1) := by omega
    rw [h3]
    rfl

theorem evalDice_spec (rng : RandomProvider) (f : ℕ) (n s : ℤ) (st : EvalSt) :
    evalCore rng (f + 2) (diceNode n s) st =
      okE (Value.ofInt (rollSum rng s st.idx n.toNat),
           Node.mk .Dice (rollKids rng s st.idx n.toNat)
             [(kSides, Value.ofInt s), (kValue, Value.ofInt (rollSum rng s st.idx n.toNat))],
           { st with idx := st.idx + n.toNat }) := by
  have h1 : evalCore rng (f + 2) (diceNode n s) st =
      evalStep rng (evalCore rng (f + 1)) (f + 1) (diceNode n s) st := rfl
  rw [h1]
  rw [evalStep]
  have ht : (diceNode n s).type = .Dice := rfl
  have hv : ((diceNode n s).getAttr kValue).truthy = false := rfl
  simp only [ht, hv, reduceCtorEq, if_false, Bool.false_eq_true]
  rw [evaluateDice]
  have hcc : expectCC (diceNode n s) 2 = okE () := rfl
  rw [hcc]
  simp only [bindE, okE]
  have hchild0 : (diceNode n s).getChild 0 = some (intNode n) := rfl
  simp only [evalChildAt, hchild0, evalCore_int, bindE, okE]
  have hset0 : (diceNode n s).setChildAt 0 (intNode n) = diceNode n s := rfl
  rw [hset0]
  have hchild1 : (diceNode n s).getChild 1 = some (sidesNode s) := rfl
  simp only [hchild1, evalCore_sides, bindE, okE, jsRound_ofInt, iterCount_ofInt']
  have hclear : (((diceNode n s).setChildAt 1 (sidesNode s)).setAttr kSides
      (Value.ofInt s)).clearChildren = Node.mk .Dice [] [(kSides, Value.ofInt s)] := rfl
  rw [hclear]
  rw [rollLoop_spec rng f s n.toNat [] 0 st]
  simp only [bindE, okE, List.nil_append, zero_add]
  rfl

/-- The constant-minimum random provider (always returns the lower
bound; obviously within the contract). -/
def rngLo : RandomProvider := fun _ lo _ => lo

theorem rngLo_ok : RngOk rngLo := by
  intro i lo hi h
  exact ⟨le_refl lo, h⟩

/-- A Dice node whose count operand is an arbitrary subexpression
(e.g. the parenthesized fraction of `(2/5)d6`). -/
def diceC (c : Node) (s : ℤ) : Node := Node.mk .Dice [c, sidesNode s] []

/-- A Divide node over two integer literals, as the parser builds for
`(a/b)`. -/
def divNode (a b : ℤ) : Node := Node.mk .Divide [intNode a, intNode b] []

theorem evalDivInt (rng : RandomProvider) (f : ℕ) (a b : ℤ) (st : EvalSt) :
    evalCore rng (f + 2) (divNode a b) st =
      okE (jsDiv (Value.ofInt a) (Value.ofInt b),
           Node.mk .Divide [intNode a, intNode b]
             [(kValue, jsDiv (Value.ofInt a) (Value.ofInt b))], st) := by
  have h1 : evalCore rng (f + 2) (divNode a b) st =
      evalStep rng (evalCore rng (f + 1)) (f + 1) (divNode a b) st := rfl
  rw [h1, evalStep]
  have ht : ((divNode a b).type = NodeType.DiceRoll) = False := by
    simp [divNode, Node.type]
  have hv : ((divNode a b).getAttr kValue).truthy = false := rfl
  simp only [ht, hv, if_false, Bool.false_eq_true, divNode, Node.type]
  have hcc : expectCC (Node.mk .Divide [intNode a, intNode b] []) 2 = okE () := rfl
  rw [hcc]
  simp only [bindE, okE]
  have hc0 : (Node.mk .Divide [intNode a, intNode b] []).getChild 0 = some (intNode a) := rfl
  have hc1 : ((Node.mk .Divide [intNode a, intNode b] []).setChildAt 0
      (intNode a)).getChild 1 = some (intNode b) := rfl
  simp only [evalChildAt, hc0, evalCore_int, bindE, okE, hc1]
  rfl

/-- Evaluating a Dice node whose count operand evaluates to `v0` and
whose sides operand is a DiceSides literal: the count is rounded, the
children are replaced by the rolled dice, and the total is their
sum. -/
theorem evalDiceG (rng : RandomProvider) (f : ℕ) (s : ℤ) (st : EvalSt)
    (c c' : Node) (v0 : Value) (st1 : EvalSt)
    (hC : evalCore rng (f + 1) c st = okE (v0, c', st1))
    (cnt : ℕ) (hcnt : iterCount (jsRound v0) = some cnt) :
    evalCore rng (f + 2) (diceC c s) st =
      okE (Value.ofInt (rollSum rng s st1.idx cnt),
           Node.mk .Dice (rollKids rng s st1.idx cnt)
             [(kSides, Value.ofInt s), (kValue, Value.ofInt (rollSum rng s st1.idx cnt))],
           { st1 with idx := st1.idx + cnt }) := by
  have h1 : evalCore rng (f + 2) (diceC c s) st =
      evalStep rng (evalCore rng (f + 1)) (f + 1) (diceC c s) st := rfl
  rw [h1, evalStep]
  have ht : ((diceC c s).type = NodeType.DiceRoll) = False := by
    simp [diceC, Node.type]
  have hv : ((diceC c s).getAttr kValue).truthy = false := rfl
  simp only [ht, hv, if_false, Bool.false_eq_true]
  have hd : (diceC c s).type = NodeType.Dice := rfl
  rw [hd, evaluateDice]
  have hcc : expectCC (diceC c s) 2 = okE () := rfl
  rw [hcc]
  simp only [bindE, okE]
  have hc0 : (diceC c s).getChild 0 = some c := rfl
  simp only [evalChildAt, hc0, hC, bindE, okE]
  have hc1 : ((diceC c s).setChildAt 0 c').getChild 1 = some (sidesNode s) := rfl
  simp only [hc1, evalCore_sides, bindE, okE, hcnt]
  have hclear : ((((diceC c s).setChildAt 0 c').setChildAt 1 (sidesNode s)).setAttr kSides
      (Value.ofInt s)).clearChildren = Node.mk .Dice [] [(kSides, Value.ofInt s)] := rfl
  rw [hclear]
  rw [rollLoop_spec rng f s cnt [] 0 st1]
  simp only [bindE, okE, List.nil_append, zero_add]
  rfl

/-- The integer value rolled by a DiceRoll leaf (its `value`
attribute; every roll the interpreter creates stores an integer). -/
def rollValInt (c : Node) : ℤ :=
  match c.getAttr kValue with
  | .num q => q.n
  | _ => 0

/-- C1: evaluating the dice expression `nds` against any
contract-respecting random provider yields a Dice node with exactly
`n` DiceRoll children, each value in `[1, s]`, and a total equal to
the sum of those values; the roll count is the evaluated count operand
rounded half-up, so `(2/5)d6` rolls 0 dice (total 0) and `(5/2)d6`
rolls 3. -/
theorem c1_nds_roll_spec (n s : ℕ) (hn : 1 ≤ n) (hs : 1 ≤ s) (rng : RandomProvider)
    (hr : RngOk rng) (st : EvalSt) :
    (∃ kids : List Node, ∃ total : ℤ,
      evalCore rng 3 (diceNode (n : ℤ) (s : ℤ)) st =
        okE (Value.ofInt total,
             Node.mk .Dice kids [(kSides, Value.ofInt (s : ℤ)), (kValue, Value.ofInt total)],
             { st with idx := st.idx + n }) ∧
      kids.length = n ∧
      (∀ c ∈ kids, c.type = .DiceRoll ∧
        ∃ v : ℤ, c.getAttr kValue = Value.ofInt v ∧ 1 ≤ v ∧ v ≤ (s : ℤ)) ∧
      total = (kids.map rollValInt).sum) ∧
    evalCore rng 3 (diceC (divNode 2 5) 6) st =
      okE (Value.ofInt 0,
           Node.mk .Dice [] [(kSides, Value.ofInt 6), (kValue, Value.ofInt 0)], st) ∧
    (∃ kids3 : List Node, ∃ t3 : ℤ,
      evalCore rng 3 (diceC (divNode 5 2) 6) st =
        okE (Value.ofInt t3,
             Node.mk .Dice kids3 [(kSides, Value.ofInt 6), (kValue, Value.ofInt t3)],
             { st with idx := st.idx + 3 }) ∧
      kids3.length = 3) := by
  refine ⟨⟨rollKids rng s st.idx n, rollSum rng s st.idx n, ?_, ?_, ?_, ?_⟩, ?_, ?_⟩
  · have h := evalDice_spec rng 1 (n : ℤ) (s : ℤ) st
    rw [Int.toNat_natCast] at h
    exact h
  · simp [rollKids]
  · intro c hc
    simp only [rollKids, List.mem_map, List.mem_range] at hc
    obtain ⟨i, _, rfl⟩ := hc
    refine ⟨rfl, rng (st.idx + i) 1 s, rfl, ?_, ?_⟩
    · exact (hr (st.idx + i) 1 s (by exact_mod_cast hs)).1
    · exact (hr (st.idx + i) 1 s (by exact_mod_cast hs)).2
  · simp only [rollKids, rollSum, List.map_map]
    rfl
  · have h := evalDiceG rng 1 6 st (divNode 2 5)
      (Node.mk .Divide [intNode 2, intNode 5]
        [(kValue, jsDiv (Value.ofInt 2) (Value.ofInt 5))])
      (jsDiv (Value.ofInt 2) (Value.ofInt 5)) st (evalDivInt rng 0 2 5 st) 0 (by rfl)
    simpa using h
  · refine ⟨rollKids rng 6 st.idx 3, rollSum rng 6 st.idx 3, ?_, by simp [rollKids]⟩
    have h := evalDiceG rng 1 6 st (divNode 5 2)
      (Node.mk .Divide [intNode 5, intNode 2]
        [(kValue, jsDiv (Value.ofInt 5) (Value.ofInt 2))])
      (jsDiv (Value.ofInt 5) (Value.ofInt 2)) st (evalDivInt rng 0 5 2 st) 3 (by rfl)
    exact h

/-- Witness for C1 at `2d6` with the constant-minimum provider. -/
theorem c1_nds_roll_spec_witness :
    ∃ kids : List Node, ∃ total : ℤ,
      evalCore rngLo 3 (diceNode 2 6) { idx := 0, errors := [] } =
        okE (Value.ofInt total,
             Node.mk .Dice kids [(kSides, Value.ofInt 6), (kValue, Value.ofInt total)],
             { idx := 2, errors := [] }) ∧
      kids.length = 2 ∧
      (∀ c ∈ kids, c.type = .DiceRoll ∧
        ∃ v : ℤ, c.getAttr kValue = Value.ofInt v ∧ 1 ≤ v ∧ v ≤ 6) ∧
      total = (kids.map rollValInt).sum :=
  (c1_nds_roll_spec 2 6 (by norm_num) (by norm_num) rngLo rngLo_ok
    { idx := 0, errors := [] }).1

/-- C3: this version of the interpreter has no limits configuration
at all — `evaluateDice` performs every requested roll and nothing ever
appends to the error list.  Interpreting `50d10` (the README example
with `maxRollTimes: 20`) performs all 50 rolls and returns an empty
error list, for every random provider. -/
theorem c3_limit_check_missing (rng : RandomProvider) :
    interpretF rng 3 (diceNode 50 10) 0 =
      okE ({ tree := Node.mk .Dice (rollKids rng 10 0 50)
               [(kSides, Value.ofInt 10), (kValue, Value.ofInt (rollSum rng 10 0 50))],
             total := Value.ofInt (rollSum rng 10 0 50), successes := 0, fails := 0,
             errors := [] }, 50) ∧
    (rollKids rng 10 0 50).length = 50 := by
  constructor
  · have h := evalDice_spec rng 1 50 10 { idx := 0, errors := [] }
    rw [interpretF]
    rw [Node.copy]
    rw [h]
    rfl
  · simp [rollKids]

theorem c9_aux (rng : RandomProvider) (fuel : ℕ) (e : Node) (i : ℕ)
    (x : Value × Node × EvalSt) :
    evalCore rng fuel e.copy { idx := i, errors := [] } = okE x →
    interpretF rng fuel e i =
      okE ({ tree := x.2.1, total := x.1, successes := 0, fails := 0,
             errors := x.2.2.errors }, x.2.2.idx) := by
  intro h
  rw [interpretF, h]
  rfl

/-- C9: whatever the expression and the random provider, the
`DiceResult` produced by `interpret` always reports 0 successes and 0
failures (`countSuccesses` and `countFailures` are unimplemented stubs
returning 0). -/
theorem c9_successes_fails_zero (rng : RandomProvider) (fuel : ℕ) (e : Node) (i : ℕ)
    (r : DiceResultM × ℕ) (h : interpretF rng fuel e i = okE r) :
    r.1.successes = 0 ∧ r.1.fails = 0 := by
  rw [interpretF] at h
  cases hev : evalCore rng fuel e.copy { idx := i, errors := [] } with
  | none => rw [hev] at h; exact absurd h (by simp [bindE, okE])
  | some x =>
    cases x with
    | error msg =>
      rw [hev] at h
      simp only [bindE] at h
      exact Except.noConfusion (Option.some.inj h)
    | ok v =>
      rw [hev] at h
      simp only [bindE, okE] at h
      injection h with h1
      injection h1 with h2
      rw [← h2]
      exact ⟨rfl, rfl⟩

/-- Witness for C9 on the expression `5` with the constant-minimum
provider. -/
theorem c9_successes_fails_zero_witness :
    interpretF rngLo 1 (intNode 5) 0 =
      okE ({ tree := intNode 5, total := Value.ofInt 5, successes := 0, fails := 0,
             errors := [] }, 0) ∧
    (0 : ℤ) = 0 ∧ (0 : ℤ) = 0 :=
  ⟨rfl, c9_successes_fails_zero rngLo 1 (intNode 5) 0
    ({ tree := intNode 5, total := Value.ofInt 5, successes := 0, fails := 0,
       errors := [] }, 0) rfl⟩

/-- A function-definition table: a JS object mapping names to
callables, as an insertion-ordered association list. -/
def tableSet {α : Type} (key : String) (v : α) : List (String × α) → List (String × α)
  | [] => [(key, v)]
  | (k, w) :: rest => if k = key then (k, v) :: rest else (k, w) :: tableSet key v rest

/-- Property lookup on a table. -/
def tableGet {α : Type} (key : String) : List (String × α) → Option α
  | [] => none
  | (k, w) :: rest => if k = key then some w else tableGet key rest

/-- JS `Object.assign(target, source)`: copies the source properties
onto the target object in place. -/
def objAssign {α : Type} (target source : List (String × α)) : List (String × α) :=
  source.foldl (fun t p => tableSet p.1 p.2 t) target

/-- The `DiceInterpreter` constructor (interpreter lines 14-18):
`this.functions = DefaultFunctionDefinitions` aliases the shared
default table object, and `Object.assign(this.functions, functions)`
then copies the custom entries into that shared object.  Given the
current shared table and the custom entries, it returns the new state
of the shared table together with the table the instance will consult
— the same object. -/
def interpreterCtor {α : Type} (globalTable custom : List (String × α)) :
    List (String × α) × List (String × α) :=
  (objAssign globalTable custom, objAssign globalTable custom)

theorem tableGet_tableSet {α : Type} (nm : String) (fn : α) (l : List (String × α)) :
    tableGet nm (tableSet nm fn l) = some fn := by
  induction l with
  | nil => simp [tableSet, tableGet]
  | cons hd tl ih =>
    by_cases hk : hd.1 = nm
    · simp [tableSet, tableGet, hk]
    · simp [tableSet, tableGet, hk, ih]

/-- C10: constructing an interpreter with a custom function list
mutates the shared default table in place, so a function supplied only
to a first interpreter is also visible in the table consulted by a
second interpreter constructed afterwards without it. -/
theorem c10_shared_function_table {α : Type} (g0 : List (String × α)) (nm : String) (fn : α) :
    tableGet nm (interpreterCtor (interpreterCtor g0 [(nm, fn)]).1
      ([] : List (String × α))).2 = some fn := by
  show tableGet nm (objAssign (objAssign g0 [(nm, fn)]) []) = some fn
  show tableGet nm (objAssign g0 [(nm, fn)]) = some fn
  show tableGet nm (tableSet nm fn g0) = some fn
  exact tableGet_tableSet nm fn g0

/-- A Dice node that has already been rolled (two fate dice summing
to 0) with its total memoized in the `value` attribute — exactly the
state a Keep/Drop/Explode modifier re-evaluates. -/
def diceZero : Node :=
  Node.mk .Dice [dieN 1 false, dieN (-1) false]
    [(kSides, .str sFate), (kValue, Value.ofInt 0)]

/-- C4 counterexample: re-evaluating an already-evaluated Dice node
whose memoized total is 0 is NOT a no-op — the falsy 0 defeats the
truthiness-based memo check, the node is re-rolled (its two DiceRoll
children are replaced by one fresh roll, its `sides` attribute is
clobbered with the first child's value) and the random provider is
consulted again. -/
theorem c4_zero_memo_counterexample :
    evalCore rngLo 3 diceZero { idx := 0, errors := [] } =
      okE (Value.ofInt 1,
           Node.mk .Dice [mkRollNode 1] [(kSides, Value.ofInt (-1)), (kValue, Value.ofInt 1)],
           { idx := 1, errors := [] }) ∧
    (Node.mk .Dice [mkRollNode 1]
      [(kSides, Value.ofInt (-1)), (kValue, Value.ofInt 1)]).children.length ≠
        diceZero.children.length ∧
    diceZero.getAttr kValue = Value.ofInt 0 := by
  refine ⟨rfl, ?_, rfl⟩
  decide

/-- C4 amended: re-evaluation of an already-valued node is a no-op
returning the cached value only when the cached value is truthy (a
nonzero number or a nonempty string); a cached 0 is mistaken for
"unevaluated" and triggers re-evaluation. -/
theorem c4_memoization_amended (rng : RandomProvider) (f : ℕ) (st : EvalSt) (e : Node)
    (h1 : e.type ≠ .DiceRoll) (h2 : (e.getAttr kValue).truthy = true) :
    evalCore rng (f + 1) e st = okE (e.getAttr kValue, e, st) := by
  rw [evalCore_succ, evalStep]
  rw [if_neg h1, h2]
  simp

/-- Witness for the amended C4 on an Integer node with cached
value 5. -/
theorem c4_memoization_amended_witness :
    (intNode 5).type ≠ .DiceRoll ∧ ((intNode 5).getAttr kValue).truthy = true ∧
    evalCore rngLo 1 (intNode 5) { idx := 0, errors := [] } =
      okE ((intNode 5).getAttr kValue, intNode 5, { idx := 0, errors := [] }) :=
  ⟨by decide, rfl,
    c4_memoization_amended rngLo 0 { idx := 0, errors := [] } (intNode 5) (by decide) rfl⟩

/-- A provider whose first draw is 3 and later draws are 5. -/
def rng36 : RandomProvider := fun i _ _ => if i = 0 then 3 else 5

/-- C6: `interpret` evaluates a deep copy of its input (the copy is
modelled from the spec as the structural identity on the immutable
tree embedding, sharing no mutable state), so two successive
`interpret` calls on the same parsed `1d6` both expand the original
Dice node independently, and their dice values differ when the
provider draws differ. -/
theorem c6_interpret_independent :
    (∀ e : Node, e.copy = e) ∧
    interpretF rng36 3 (diceNode 1 6) 0 =
      okE ({ tree := Node.mk .Dice [mkRollNode 3]
               [(kSides, Value.ofInt 6), (kValue, Value.ofInt 3)],
             total := Value.ofInt 3, successes := 0, fails := 0, errors := [] }, 1) ∧
    interpretF rng36 3 (diceNode 1 6) 1 =
      okE ({ tree := Node.mk .Dice [mkRollNode 5]
               [(kSides, Value.ofInt 6), (kValue, Value.ofInt 5)],
             total := Value.ofInt 5, successes := 0, fails := 0, errors := [] }, 2) ∧
    Value.ofInt 3 ≠ Value.ofInt 5 := by
  refine ⟨fun e => rfl, rfl, rfl, ?_⟩
  decide

/-- The token stream of the expression `2*3**2`. -/
def toksC2 : List Token :=
  [⟨.Integer, 0, nv2⟩, ⟨.Asterisk, 1, emp⟩, ⟨.Integer, 2, nv3⟩,
   ⟨.DoubleAsterisk, 3, emp⟩, ⟨.Integer, 5, nv2⟩]
where
  nv2 : String := "2"
  nv3 : String := "3"
  emp : String := ""

/-- The AST the parser produces for `2*3**2`: the exponent grouped as
`(2*3)**2`, because `**` sits in the same left-associative operator
loop as `*`. -/
def treeC2 : Node :=
  Node.mk .Exponent [Node.mk .Multiply [intNode 2, intNode 3] [], intNode 2] []

/-- C2 counterexample: `2*3**2` parses as `(2*3)**2` and interprets
to 36, not 18 — exponent does NOT bind tighter than multiply in this
parser. -/
theorem c2_exponent_precedence_counterexample :
    parseTokens 30 toksC2 = some (treeC2, { toks := [], perrs := [] }) ∧
    interpretF rngLo 10 treeC2 0 =
      okE ({ tree := Node.mk .Exponent
               [Node.mk .Multiply [intNode 2, intNode 3] [(kValue, Value.ofInt 6)], intNode 2]
               [(kValue, Value.ofInt 36)],
             total := Value.ofInt 36, successes := 0, fails := 0, errors := [] }, 0) ∧
    Value.ofInt 36 ≠ Value.ofInt 18 := by
  refine ⟨rfl, rfl, ?_⟩
  decide

/-- C2 amended: `**` has the same precedence as `*`, `/` and `%` and
associates left, so `2*3**2` is grouped `(2*3)**2` and yields 36. -/
theorem c2_exponent_precedence_amended :
    parseTokens 30 toksC2 = some (treeC2, { toks := [], perrs := [] }) ∧
    treeC2.type = .Exponent ∧
    (treeC2.getChild 0).map Node.type = some .Multiply ∧
    (interpretF rngLo 10 treeC2 0).map (Except.map fun r => r.1.total) =
      some (.ok (Value.ofInt 36)) := by
  exact ⟨rfl, rfl, rfl, rfl⟩

/-- Re-evaluation of a node with a truthy cached `value` attribute is
a no-op returning the cached value (the memoization path of
`evaluate`). -/
theorem evalMemo (rng : RandomProvider) (f : ℕ) (st : EvalSt) (e : Node)
    (h1 : e.type ≠ .DiceRoll) (h2 : (e.getAttr kValue).truthy = true) :
    evalCore rng (f + 1) e st = okE (e.getAttr kValue, e, st) := by
  rw [evalCore_succ, evalStep]
  rw [if_neg h1, h2]
  simp

/-- The contribution of one rolled die to an evaluated total: its
value unless it is dropped, else 0 (`evaluateDiceRoll`). -/
def contribInt (p : ℤ × Bool) : ℤ := if p.2 then 0 else p.1

/-- An already-rolled Dice node: one DiceRoll child per value/drop
pair and the memoized total `T`. -/
def diceRolled (vals : List (ℤ × Bool)) (T : ℤ) : Node :=
  Node.mk .Dice (vals.map fun p => dieN p.1 p.2) [(kValue, Value.ofInt T)]

/-- A Sort modifier node over a dice operand. -/
def mkSortNode (dir : String) (d : Node) : Node :=
  Node.mk .Sort [d] [(kDirection, .str dir)]

theorem getAttr_dieN_value (v : ℤ) (b : Bool) :
    (dieN v b).getAttr kValue = Value.ofInt v := by
  cases b <;> rfl

theorem rollValInt_dieN (v : ℤ) (b : Bool) : rollValInt (dieN v b) = v := by
  cases b <;> rfl

theorem evalCore_dieN (rng : RandomProvider) (f : ℕ) (v : ℤ) (b : Bool) (st : EvalSt) :
    evalCore rng (f + 1) (dieN v b) st =
      okE (Value.ofInt (contribInt (v, b)), dieN v b, st) := by
  cases b <;> rfl

theorem jsLt_ofInt (a b : ℤ) : jsLt (Value.ofInt a) (Value.ofInt b) = decide (a < b) := by
  simp [jsLt, Value.ofInt, Value.toNumber, JsQ.ltb, JsQ.ofInt]

theorem list_set_self {α : Type} : ∀ (l : List α) (i : ℕ) (x : α),
    l.get? i = some x → l.set i x = l
  | [], i, x, h => by simp [List.get?] at h
  | a :: l, 0, x, h => by
    simp only [List.get?] at h
    injection h with h
    simp [h]
  | a :: l, i + 1, x, h => by
    simp only [List.get?] at h
    simp [list_set_self l i x h]

theorem collectRolls_spec (rng : RandomProvider) (f : ℕ) (vals : List (ℤ × Bool)) (T : ℤ) :
    ∀ (rem i : ℕ), i + rem = vals.length → ∀ (t0 : ℤ) (st : EvalSt),
    collectRolls (evalCore rng (f + 1)) (diceRolled vals T) i rem (Value.ofInt t0) st =
      okE (diceRolled vals T, Value.ofInt (t0 + ((vals.drop i).map contribInt).sum), st) := by
  intro rem
  induction rem with
  | zero =>
    intro i hi t0 st
    have hd : vals.drop i = [] := by
      apply List.drop_eq_nil_of_le
      omega
    rw [collectRolls, hd]
    simp [okE]
  | succ m ih =>
    intro i hi t0 st
    have hilt : i < vals.length := by omega
    have hv : vals.get? i = some (vals.get ⟨i, hilt⟩) := List.get?_eq_get hilt
    set p := vals.get ⟨i, hilt⟩ with hp
    have hchild : (diceRolled vals T).getChild i = some (dieN p.1 p.2) := by
      simp only [diceRolled, Node.getChild, Node.children, List.get?_map, hv]
      rfl
    have hset : (diceRolled vals T).setChildAt i (dieN p.1 p.2) = diceRolled vals T := by
      simp only [diceRolled, Node.setChildAt, Node.type, Node.children, Node.attrs]
      congr 1
      apply list_set_self
      simp only [List.get?_map, hv]
      rfl
    rw [collectRolls]
    simp only [evalChildAt, hchild, evalCore_dieN, bindE, okE, hset, jsAdd_ofInt]
    rw [ih (i + 1) (by omega) (t0 + contribInt p) st]
    have hdrop : vals.drop i = p :: vals.drop (i + 1) := List.drop_eq_get_cons hilt
    rw [hdrop]
    simp only [List.map_cons, List.sum_cons]
    rw [add_assoc]
    rfl

theorem insPair_perm (cont : Node → Node → Bool) (x : ℕ × Node) :
    ∀ l : List (ℕ × Node), (insPair cont x l).Perm (x :: l)
  | [] => List.Perm.refl _
  | y :: ys => by
    rw [insPair]
    by_cases h : cont x.2 y.2
    · rw [if_pos h]
      exact ((insPair_perm cont x ys).cons y).trans (List.Perm.swap x y ys)
    · rw [if_neg h]

theorem sortPairs_perm (cont : Node → Node → Bool) :
    ∀ l : List (ℕ × Node), (sortPairs cont l).Perm l
  | [] => List.Perm.refl _
  | x :: xs =>
    (insPair_perm cont x (sortPairs cont xs)).trans ((sortPairs_perm cont xs).cons x)

/-- A node carrying an integer `value` attribute (every DiceRoll the
interpreter creates). -/
def hasIntVal (c : Node) : Prop := ∃ v : ℤ, c.getAttr kValue = Value.ofInt v

theorem rollValInt_of {c : Node} {v : ℤ} (h : c.getAttr kValue = Value.ofInt v) :
    rollValInt c = v := by
  rw [rollValInt, h]
  rfl

theorem contAsc_int {x y : Node} (hx : hasIntVal x) (hy : hasIntVal y) :
    contAsc x y = decide (rollValInt y < rollValInt x) := by
  obtain ⟨a, ha⟩ := hx
  obtain ⟨b, hb⟩ := hy
  rw [contAsc, ha, hb, jsLt_ofInt, rollValInt_of ha, rollValInt_of hb]

theorem contDesc_int {x y : Node} (hx : hasIntVal x) (hy : hasIntVal y) :
    contDesc x y = decide (rollValInt x < rollValInt y) := by
  obtain ⟨a, ha⟩ := hx
  obtain ⟨b, hb⟩ := hy
  rw [contDesc, ha, hb, jsLt_ofInt, rollValInt_of ha, rollValInt_of hb]

/-- Ascending order on index-tagged rolls, by rolled value. -/
def rAsc (a b : ℕ × Node) : Prop := rollValInt a.2 ≤ rollValInt b.2

/-- Descending order on index-tagged rolls, by rolled value. -/
def rDesc (a b : ℕ × Node) : Prop := rollValInt b.2 ≤ rollValInt a.2

theorem insPair_sorted_asc (x : ℕ × Node) (hx : hasIntVal x.2) :
    ∀ l : List (ℕ × Node), (∀ p ∈ l, hasIntVal p.2) → l.Pairwise rAsc →
      (insPair contAsc x l).Pairwise rAsc
  | [], _, _ => by simp [insPair]
  | y :: ys, hmem, hpw => by
    rw [insPair]
    have hy := hmem y (by simp)
    have hys : ∀ p ∈ ys, hasIntVal p.2 := fun p hp => hmem p (by simp [hp])
    rw [List.pairwise_cons] at hpw
    by_cases h : contAsc x.2 y.2 = true
    · rw [if_pos h]
      rw [List.pairwise_cons]
      constructor
      · intro q hq
        have hq' := (insPair_perm contAsc x ys).mem_iff.mp hq
        rcases List.mem_cons.mp hq' with hqx | hqys
        · subst hqx
          rw [contAsc_int hx hy] at h
          have := of_decide_eq_true h
          exact le_of_lt this
        · exact hpw.1 q hqys
      · exact insPair_sorted_asc x hx ys hys hpw.2
    · rw [if_neg h]
      rw [List.pairwise_cons]
      constructor
      · intro q hq
        rcases List.mem_cons.mp hq with hqy | hqys
        · subst hqy
          rw [contAsc_int hx hy] at h
          exact le_of_not_lt (of_decide_eq_false (eq_false_of_ne_true h))
        · have h1 : rollValInt x.2 ≤ rollValInt y.2 := by
            rw [contAsc_int hx hy] at h
            exact le_of_not_lt (of_decide_eq_false (eq_false_of_ne_true h))
          exact le_trans h1 (hpw.1 q hqys)
      · exact List.pairwise_cons.mpr hpw

theorem insPair_sorted_desc (x : ℕ × Node) (hx : hasIntVal x.2) :
    ∀ l : List (ℕ × Node), (∀ p ∈ l, hasIntVal p.2) → l.Pairwise rDesc →
      (insPair contDesc x l).Pairwise rDesc
  | [], _, _ => by simp [insPair]
  | y :: ys, hmem, hpw => by
    rw [insPair]
    have hy := hmem y (by simp)
    have hys : ∀ p ∈ ys, hasIntVal p.2 := fun p hp => hmem p (by simp [hp])
    rw [List.pairwise_cons] at hpw
    by_cases h : contDesc x.2 y.2 = true
    · rw [if_pos h]
      rw [List.pairwise_cons]
      constructor
      · intro q hq
        have hq' := (insPair_perm contDesc x ys).mem_iff.mp hq
        rcases List.mem_cons.mp hq' with hqx | hqys
        · subst hqx
          rw [contDesc_int hx hy] at h
          exact le_of_lt (of_decide_eq_true h)
        · exact hpw.1 q hqys
      · exact insPair_sorted_desc x hx ys hys hpw.2
    · rw [if_neg h]
      rw [List.pairwise_cons]
      constructor
      · intro q hq
        rcases List.mem_cons.mp hq with hqy | hqys
        · subst hqy
          rw [contDesc_int hx hy] at h
          exact le_of_not_lt (of_decide_eq_false (eq_false_of_ne_true h))
        · have h1 : rollValInt y.2 ≤ rollValInt x.2 := by
            rw [contDesc_int hx hy] at h
            exact le_of_not_lt (of_decide_eq_false (eq_false_of_ne_true h))
          exact le_trans (hpw.1 q hqys) h1
      · exact List.pairwise_cons.mpr hpw

theorem sortPairs_sorted_asc :
    ∀ l : List (ℕ × Node), (∀ p ∈ l, hasIntVal p.2) →
      (sortPairs contAsc l).Pairwise rAsc
  | [], _ => by simp [sortPairs]
  | x :: xs, hmem => by
    rw [sortPairs]
    refine insPair_sorted_asc x (hmem x (by simp)) _ ?_ ?_
    · intro p hp
      exact hmem p (by simp [(sortPairs_perm contAsc xs).mem_iff.mp hp])
    · exact sortPairs_sorted_asc xs fun p hp => hmem p (by simp [hp])

theorem sortPairs_sorted_desc :
    ∀ l : List (ℕ × Node), (∀ p ∈ l, hasIntVal p.2) →
      (sortPairs contDesc l).Pairwise rDesc
  | [], _ => by simp [sortPairs]
  | x :: xs, hmem => by
    rw [sortPairs]
    refine insPair_sorted_desc x (hmem x (by simp)) _ ?_ ?_
    · intro p hp
      exact hmem p (by simp [(sortPairs_perm contDesc xs).mem_iff.mp hp])
    · exact sortPairs_sorted_desc xs fun p hp => hmem p (by simp [hp])

theorem sortPairs_id_asc :
    ∀ l : List (ℕ × Node), (∀ p ∈ l, hasIntVal p.2) → l.Pairwise rAsc →
      sortPairs contAsc l = l
  | [], _, _ => rfl
  | x :: xs, hmem, hpw => by
    rw [sortPairs]
    rw [List.pairwise_cons] at hpw
    rw [sortPairs_id_asc xs (fun p hp => hmem p (by simp [hp])) hpw.2]
    cases xs with
    | nil => rfl
    | cons y ys =>
      rw [insPair]
      have hxy : contAsc x.2 y.2 = false := by
        rw [contAsc_int (hmem x (by simp)) (hmem y (by simp))]
        simp only [decide_eq_false_iff_not, not_lt]
        exact hpw.1 y (by simp)
      rw [hxy]
      simp

theorem sortPairs_id_desc :
    ∀ l : List (ℕ × Node), (∀ p ∈ l, hasIntVal p.2) → l.Pairwise rDesc →
      sortPairs contDesc l = l
  | [], _, _ => rfl
  | x :: xs, hmem, hpw => by
    rw [sortPairs]
    rw [List.pairwise_cons] at hpw
    rw [sortPairs_id_desc xs (fun p hp => hmem p (by simp [hp])) hpw.2]
    cases xs with
    | nil => rfl
    | cons y ys =>
      rw [insPair]
      have hxy : contDesc x.2 y.2 = false := by
        rw [contDesc_int (hmem x (by simp)) (hmem y (by simp))]
        simp only [decide_eq_false_iff_not, not_lt]
        exact hpw.1 y (by simp)
      rw [hxy]
      simp

/-- The child list of a dice node after the Sort modifier ran: the
rolls tagged with their positions, stably sorted by value in the given
direction (an unrecognized direction leaves the order unchanged, the
comparator being undefined). -/
def sortKids (dir : String) (vals : List (ℤ × Bool)) : List Node :=
  (if dir = sDescending then
    sortPairs contDesc ((List.range vals.length).zip (vals.map fun p => dieN p.1 p.2))
   else if dir = sAscending then
    sortPairs contAsc ((List.range vals.length).zip (vals.map fun p => dieN p.1 p.2))
   else (List.range vals.length).zip (vals.map fun p => dieN p.1 p.2)).map Prod.snd

theorem getAttr_diceRolled (vals : List (ℤ × Bool)) (T : ℤ) :
    (diceRolled vals T).getAttr kValue = Value.ofInt T := rfl

theorem diceRolled_type (vals : List (ℤ × Bool)) (T : ℤ) :
    (diceRolled vals T).type = .Dice := rfl


theorem bindE_ok {α β : Type} (a : α) (g : α → OptExc β) : bindE (okE a) g = g a := rfl

theorem flm_zero (ev : EvalFn) (e : Node) (st : EvalSt) :
    flm ev 0 e st = if e.type = .Dice then okE (0, e, st) else none := rfl

theorem flm_succ (ev : EvalFn) (f : ℕ) (e : Node) (st : EvalSt) :
    flm ev (f + 1) e st =
      if e.type = .Dice then okE (0, e, st)
      else
        if e.childCount < 1 then throwE missingDiceMsg
        else
          match e.getChild 0 with
          | none => throwE nullNodeMsg
          | some c =>
            bindE (ev c st) fun r =>
            bindE (flm ev f r.2.1 r.2.2) fun q =>
            okE (q.1 + 1, e.setChildAt 0 q.2.1, q.2.2) := rfl

theorem flm_dice (ev : EvalFn) (fuel : ℕ) (e : Node) (st : EvalSt) (h : e.type = .Dice) :
    flm ev fuel e st = okE (0, e, st) := by
  cases fuel with
  | zero => rw [flm_zero, if_pos h]
  | succ f => rw [flm_succ, if_pos h]

theorem flm_modifier (rng : RandomProvider) (f : ℕ) (st : EvalSt) (e : Node)
    (e1vals : List (ℤ × Bool)) (e1T : ℤ)
    (hne : e.type ≠ .Dice) (hchild : e.getChild 0 = some (diceRolled e1vals e1T))
    (hcc : ¬ e.childCount < 1) (hT : e1T ≠ 0)
    (hset : e.setChildAt 0 (diceRolled e1vals e1T) = e) :
    flm (evalCore rng (f + 1)) (f + 1) e st = okE (1, e, st) := by
  have hmemo : evalCore rng (f + 1) (diceRolled e1vals e1T) st =
      okE (Value.ofInt e1T, diceRolled e1vals e1T, st) := by
    have h := evalMemo rng f st (diceRolled e1vals e1T)
      (by rw [diceRolled_type]; decide)
      (by rw [getAttr_diceRolled, truthy_ofInt]; simp [hT])
    rw [getAttr_diceRolled] at h
    exact h
  rw [flm_succ, if_neg hne, if_neg hcc, hchild]
  show bindE (evalCore rng (f + 1) (diceRolled e1vals e1T) st) _ = okE (1, e, st)
  rw [hmemo, bindE_ok]
  show bindE (flm (evalCore rng (f + 1)) f (diceRolled e1vals e1T) st) _ = okE (1, e, st)
  rw [flm_dice _ _ _ _ (diceRolled_type e1vals e1T), bindE_ok]
  show okE (0 + 1, e.setChildAt 0 (diceRolled e1vals e1T), st) = okE (1, e, st)
  rw [hset]

theorem evaluateSort_eq (rng : RandomProvider) (f : ℕ) (vals : List (ℤ × Bool)) (T : ℤ)
    (hT : T ≠ 0) (dir : String) (st : EvalSt) :
    evaluateSort (evalCore rng (f + 1)) (f + 1) (mkSortNode dir (diceRolled vals T)) st =
      okE (Value.ofInt ((vals.map contribInt).sum),
           Node.mk .Sort [Node.mk .Dice (sortKids dir vals) [(kValue, Value.ofInt T)]]
             [(kDirection, .str dir)],
           st) := by
  rw [evaluateSort]
  have hcc : expectCC (mkSortNode dir (diceRolled vals T)) 1 = okE () := rfl
  rw [hcc, bindE_ok]
  have hne : (mkSortNode dir (diceRolled vals T)).type ≠ .Dice := by
    rw [show (mkSortNode dir (diceRolled vals T)).type = .Sort from rfl]
    decide
  have hccflm : ¬ (mkSortNode dir (diceRolled vals T)).childCount < 1 := by
    simp [mkSortNode, Node.childCount, Node.children]
  rw [flm_modifier rng f st (mkSortNode dir (diceRolled vals T)) vals T hne rfl hccflm hT rfl,
    bindE_ok]
  have h4 : (mkSortNode dir (diceRolled vals T)).subtreeAt0 1 = some (diceRolled vals T) := rfl
  show (match (mkSortNode dir (diceRolled vals T)).subtreeAt0 1 with
    | none => throwE nullNodeMsg
    | some dice0 =>
      bindE (sortedRollsE (evalCore rng (f + 1)) dice0
        ((mkSortNode dir (diceRolled vals T)).getAttr kDirection) st) fun s =>
      okE (s.2.2.1, (mkSortNode dir (diceRolled vals T)).updateAt0 1
        (Node.mk s.1.type (s.2.1.map Prod.snd) s.1.attrs), s.2.2.2)) = _
  rw [h4]
  show bindE (sortedRollsE (evalCore rng (f + 1)) (diceRolled vals T)
      ((mkSortNode dir (diceRolled vals T)).getAttr kDirection) st)
    (fun s => okE (s.2.2.1, (mkSortNode dir (diceRolled vals T)).updateAt0 1
      (Node.mk s.1.type (s.2.1.map Prod.snd) s.1.attrs), s.2.2.2)) = _
  have h5 : (mkSortNode dir (diceRolled vals T)).getAttr kDirection = .str dir := rfl
  rw [h5]
  unfold sortedRollsE
  have h6 : (diceRolled vals T).childCount = vals.length := by
    simp [diceRolled, Node.childCount, Node.children]
  rw [h6]
  rw [collectRolls_spec rng f vals T vals.length 0 (by omega) 0 st, bindE_ok]
  simp only [List.drop_zero, zero_add]
  have h7 : (diceRolled vals T).children = vals.map fun p => dieN p.1 p.2 := rfl
  rw [h6, h7]
  have hupd : ∀ kids' : List Node,
      (mkSortNode dir (diceRolled vals T)).updateAt0 1
        (Node.mk (diceRolled vals T).type kids' (diceRolled vals T).attrs) =
      Node.mk .Sort [Node.mk .Dice kids' [(kValue, Value.ofInt T)]]
        [(kDirection, .str dir)] := fun _ => rfl
  by_cases hd1 : dir = sDescending
  · subst hd1
    have hcond : jsStrictEq (Value.str sDescending) (.str sDescending) = true := by
      simp [jsStrictEq]
    rw [hcond]
    simp only [if_true, bindE_ok]
    rw [hupd]
    have hsk : sortKids sDescending vals =
        (sortPairs contDesc ((List.range vals.length).zip
          (vals.map fun p => dieN p.1 p.2))).map Prod.snd := by
      simp [sortKids]
    rw [hsk]
  · have hcond : jsStrictEq (Value.str dir) (.str sDescending) = false := by
      simp [jsStrictEq, hd1]
    rw [hcond]
    by_cases hd2 : dir = sAscending
    · subst hd2
      have hcond2 : jsStrictEq (Value.str sAscending) (.str sAscending) = true := by
        simp [jsStrictEq]
      rw [hcond2]
      simp only [Bool.false_eq_true, if_false, if_true, bindE_ok]
      rw [hupd]
      have hsk : sortKids sAscending vals =
          (sortPairs contAsc ((List.range vals.length).zip
            (vals.map fun p => dieN p.1 p.2))).map Prod.snd := by
        simp [sortKids, hd1]
      rw [hsk]
    · have hcond2 : jsStrictEq (Value.str dir) (.str sAscending) = false := by
        simp [jsStrictEq, hd2]
      rw [hcond2]
      simp only [Bool.false_eq_true, if_false, bindE_ok]
      rw [hupd]
      have hsk : sortKids dir vals =
          ((List.range vals.length).zip (vals.map fun p => dieN p.1 p.2)).map Prod.snd := by
        simp [sortKids, hd1, hd2]
      rw [hsk]

theorem evalSort_eq (rng : RandomProvider) (f : ℕ) (vals : List (ℤ × Bool)) (T : ℤ)
    (hT : T ≠ 0) (dir : String) (st : EvalSt) :
    evalCore rng (f + 2) (mkSortNode dir (diceRolled vals T)) st =
      okE (Value.ofInt ((vals.map contribInt).sum),
           Node.mk .Sort [Node.mk .Dice (sortKids dir vals) [(kValue, Value.ofInt T)]]
             [(kDirection, .str dir), (kValue, Value.ofInt ((vals.map contribInt).sum))],
           st) := by
  have h0 : evalCore rng (f + 2) (mkSortNode dir (diceRolled vals T)) st =
      evalStep rng (evalCore rng (f + 1)) (f + 1) (mkSortNode dir (diceRolled vals T)) st := rfl
  rw [h0, evalStep]
  have h1 : ((mkSortNode dir (diceRolled vals T)).type = NodeType.DiceRoll) = False := by
    simp [mkSortNode, Node.type]
  have h2 : ((mkSortNode dir (diceRolled vals T)).getAttr kValue).truthy = false := rfl
  simp only [h1, h2, if_false, Bool.false_eq_true]
  have h3 : (mkSortNode dir (diceRolled vals T)).type = .Sort := rfl
  rw [h3]
  rw [evaluateSort_eq rng f vals T hT dir st]
  rfl

/-- The value/drop pair a DiceRoll leaf carries. -/
def extractRoll (c : Node) : ℤ × Bool :=
  (rollValInt c, jsStrictEq (c.getAttr kDrop) (.str sYes))

theorem extractRoll_dieN (v : ℤ) (b : Bool) : extractRoll (dieN v b) = (v, b) := by
  cases b <;> rfl

theorem map_snd_zip_len {α : Type} : ∀ (r : List ℕ) (l : List α), l.length ≤ r.length →
    (r.zip l).map Prod.snd = l
  | _, [], _ => by simp
  | [], x :: xs, h => by simp at h
  | a :: r, x :: xs, h => by
    simp only [List.zip_cons_cons, List.map_cons]
    rw [map_snd_zip_len r xs (by simpa using h)]

theorem pairwise_zip_snd {R : Node → Node → Prop} :
    ∀ (r : List ℕ) (l : List Node), l.Pairwise R →
      (r.zip l).Pairwise fun a b => R a.2 b.2
  | [], _, _ => by simp
  | _ :: _, [], _ => by simp
  | a :: r, x :: xs, h => by
    rw [List.pairwise_cons] at h
    simp only [List.zip_cons_cons, List.pairwise_cons]
    constructor
    · intro q hq
      exact h.1 q.2 (List.of_mem_zip hq).2
    · exact pairwise_zip_snd r xs h.2

theorem sortKids_perm (dir : String) (vals : List (ℤ × Bool)) :
    (sortKids dir vals).Perm (vals.map fun p => dieN p.1 p.2) := by
  have hlen : (vals.map fun p => dieN p.1 p.2).length ≤ (List.range vals.length).length := by
    simp
  have hz := map_snd_zip_len (List.range vals.length) (vals.map fun p => dieN p.1 p.2) hlen
  rw [sortKids]
  by_cases hd1 : dir = sDescending
  · simp only [hd1, if_true]
    refine List.Perm.trans ((sortPairs_perm contDesc _).map Prod.snd) ?_
    rw [hz]
  · by_cases hd2 : dir = sAscending
    · simp only [hd1, hd2, if_false, if_true]
      refine List.Perm.trans ((sortPairs_perm contAsc _).map Prod.snd) ?_
      rw [hz]
    · simp only [hd1, hd2, if_false]
      rw [hz]

theorem hasIntVal_of_mem_kids {c : Node} {vals : List (ℤ × Bool)}
    (h : c ∈ vals.map fun p => dieN p.1 p.2) : hasIntVal c := by
  rw [List.mem_map] at h
  obtain ⟨p, _, rfl⟩ := h
  exact ⟨p.1, getAttr_dieN_value p.1 p.2⟩


theorem sortKids_asc (vals : List (ℤ × Bool)) :
    sortKids sAscending vals =
      (sortPairs contAsc ((List.range vals.length).zip
        (vals.map fun p => dieN p.1 p.2))).map Prod.snd := by
  rw [sortKids]
  rw [if_neg (by decide : ¬ sAscending = sDescending), if_pos rfl]

theorem sortKids_desc (vals : List (ℤ × Bool)) :
    sortKids sDescending vals =
      (sortPairs contDesc ((List.range vals.length).zip
        (vals.map fun p => dieN p.1 p.2))).map Prod.snd := by
  rw [sortKids]
  rw [if_pos rfl]

theorem sortKids_vals_perm (dir : String) (vals : List (ℤ × Bool)) :
    ((sortKids dir vals).map rollValInt).Perm (vals.map Prod.fst) := by
  have h1 := (sortKids_perm dir vals).map rollValInt
  have h2 : (vals.map fun p => dieN p.1 p.2).map rollValInt = vals.map Prod.fst := by
    rw [List.map_map]
    exact List.map_congr_left fun p _ => rollValInt_dieN p.1 p.2
  rw [h2] at h1
  exact h1

theorem sortKids_shape (dir : String) (vals : List (ℤ × Bool)) :
    ∀ c ∈ sortKids dir vals, ∃ p : ℤ × Bool, c = dieN p.1 p.2 := by
  intro c hc
  have := (sortKids_perm dir vals).mem_iff.mp hc
  rw [List.mem_map] at this
  obtain ⟨p, _, hp⟩ := this
  exact ⟨p, hp.symm⟩

theorem sortKids_extract (dir : String) (vals : List (ℤ × Bool)) :
    ((sortKids dir vals).map extractRoll).map (fun p => dieN p.1 p.2) =
      sortKids dir vals := by
  rw [List.map_map]
  have : ∀ c ∈ sortKids dir vals, (fun p : ℤ × Bool => dieN p.1 p.2) (extractRoll c) = c := by
    intro c hc
    obtain ⟨p, rfl⟩ := sortKids_shape dir vals c hc
    rw [extractRoll_dieN]
  calc (sortKids dir vals).map ((fun p : ℤ × Bool => dieN p.1 p.2) ∘ extractRoll)
      = (sortKids dir vals).map id := List.map_congr_left this
    _ = sortKids dir vals := List.map_id _

theorem sortKids_extract_perm (dir : String) (vals : List (ℤ × Bool)) :
    ((sortKids dir vals).map extractRoll).Perm vals := by
  have h1 := (sortKids_perm dir vals).map extractRoll
  have h2 : (vals.map fun p => dieN p.1 p.2).map extractRoll = vals := by
    rw [List.map_map]
    calc vals.map (extractRoll ∘ fun p : ℤ × Bool => dieN p.1 p.2)
        = vals.map id := List.map_congr_left fun p _ => extractRoll_dieN p.1 p.2
      _ = vals := List.map_id _
  rw [h2] at h1
  exact h1

theorem hasIntVal_of_shape {c : Node} (h : ∃ p : ℤ × Bool, c = dieN p.1 p.2) :
    hasIntVal c := by
  obtain ⟨p, rfl⟩ := h
  exact ⟨p.1, getAttr_dieN_value p.1 p.2⟩

theorem sortKids_sorted_asc (vals : List (ℤ × Bool)) :
    (sortKids sAscending vals).Pairwise fun a b => rollValInt a ≤ rollValInt b := by
  rw [sortKids_asc]
  have hvmem : ∀ p ∈ (List.range vals.length).zip (vals.map fun q => dieN q.1 q.2),
      hasIntVal p.2 := fun p hp => hasIntVal_of_mem_kids (List.of_mem_zip hp).2
  exact (sortPairs_sorted_asc _ hvmem).map _ (fun a b hab => hab)

theorem sortKids_sorted_desc (vals : List (ℤ × Bool)) :
    (sortKids sDescending vals).Pairwise fun a b => rollValInt b ≤ rollValInt a := by
  rw [sortKids_desc]
  have hvmem : ∀ p ∈ (List.range vals.length).zip (vals.map fun q => dieN q.1 q.2),
      hasIntVal p.2 := fun p hp => hasIntVal_of_mem_kids (List.of_mem_zip hp).2
  exact (sortPairs_sorted_desc _ hvmem).map _ (fun a b hab => hab)

theorem sortKids_idem_asc (vals' : List (ℤ × Bool))
    (hsorted : (vals'.map fun p => dieN p.1 p.2).Pairwise fun a b =>
      rollValInt a ≤ rollValInt b) :
    sortKids sAscending vals' = vals'.map fun p => dieN p.1 p.2 := by
  rw [sortKids_asc]
  have hvmem : ∀ p ∈ (List.range vals'.length).zip (vals'.map fun q => dieN q.1 q.2),
      hasIntVal p.2 := fun p hp => hasIntVal_of_mem_kids (List.of_mem_zip hp).2
  have hpwz : ((List.range vals'.length).zip (vals'.map fun q => dieN q.1 q.2)).Pairwise
      rAsc := pairwise_zip_snd _ _ hsorted
  rw [sortPairs_id_asc _ hvmem hpwz]
  exact map_snd_zip_len _ _ (by simp)

theorem sortKids_idem_desc (vals' : List (ℤ × Bool))
    (hsorted : (vals'.map fun p => dieN p.1 p.2).Pairwise fun a b =>
      rollValInt b ≤ rollValInt a) :
    sortKids sDescending vals' = vals'.map fun p => dieN p.1 p.2 := by
  rw [sortKids_desc]
  have hvmem : ∀ p ∈ (List.range vals'.length).zip (vals'.map fun q => dieN q.1 q.2),
      hasIntVal p.2 := fun p hp => hasIntVal_of_mem_kids (List.of_mem_zip hp).2
  have hpwz : ((List.range vals'.length).zip (vals'.map fun q => dieN q.1 q.2)).Pairwise
      rDesc := pairwise_zip_snd _ _ hsorted
  rw [sortPairs_id_desc _ hvmem hpwz]
  exact map_snd_zip_len _ _ (by simp)

/-- C7: the Sort modifier reorders a dice node's children into
ascending (resp. descending) order of value; the resulting child
values are a permutation of the original multiset with unchanged sum,
the dice node's memoized `value` attribute survives unchanged, and
sorting a second time in the same direction leaves the children (and
the total) exactly as after the first sort. -/
theorem c7_sort_spec (asc : Bool) (vals : List (ℤ × Bool)) (T : ℤ) (hT : T ≠ 0)
    (rng : RandomProvider) (f : ℕ) (st : EvalSt) :
    ∃ kids' : List Node,
      evalCore rng (f + 2) (mkSortNode (if asc then sAscending else sDescending)
          (diceRolled vals T)) st =
        okE (Value.ofInt ((vals.map contribInt).sum),
             Node.mk .Sort [Node.mk .Dice kids' [(kValue, Value.ofInt T)]]
               [(kDirection, .str (if asc then sAscending else sDescending)),
                (kValue, Value.ofInt ((vals.map contribInt).sum))],
             st) ∧
      (kids'.map rollValInt).Perm (vals.map Prod.fst) ∧
      kids'.Pairwise (fun a b =>
        if asc then rollValInt a ≤ rollValInt b else rollValInt b ≤ rollValInt a) ∧
      (kids'.map rollValInt).sum = (vals.map Prod.fst).sum ∧
      evalCore rng (f + 2) (mkSortNode (if asc then sAscending else sDescending)
          (Node.mk .Dice kids' [(kValue, Value.ofInt T)])) st =
        okE (Value.ofInt ((vals.map contribInt).sum),
             Node.mk .Sort [Node.mk .Dice kids' [(kValue, Value.ofInt T)]]
               [(kDirection, .str (if asc then sAscending else sDescending)),
                (kValue, Value.ofInt ((vals.map contribInt).sum))],
             st) := by
  cases asc with
  | true =>
    simp only [if_true]
    refine ⟨sortKids sAscending vals, evalSort_eq rng f vals T hT sAscending st,
      sortKids_vals_perm sAscending vals, sortKids_sorted_asc vals,
      (sortKids_vals_perm sAscending vals).sum_eq, ?_⟩
    have hident := sortKids_extract sAscending vals
    have hdr : diceRolled ((sortKids sAscending vals).map extractRoll) T =
        Node.mk .Dice (sortKids sAscending vals) [(kValue, Value.ofInt T)] := by
      rw [diceRolled, hident]
    have h := evalSort_eq rng f ((sortKids sAscending vals).map extractRoll) T hT
      sAscending st
    rw [hdr] at h
    have hidem : sortKids sAscending ((sortKids sAscending vals).map extractRoll) =
        sortKids sAscending vals := by
      rw [sortKids_idem_asc _ (by rw [hident]; exact sortKids_sorted_asc vals), hident]
    rw [hidem] at h
    have hsums : ((((sortKids sAscending vals).map extractRoll)).map contribInt).sum =
        (vals.map contribInt).sum :=
      ((sortKids_extract_perm sAscending vals).map contribInt).sum_eq
    rw [hsums] at h
    exact h
  | false =>
    simp only [Bool.false_eq_true, if_false]
    refine ⟨sortKids sDescending vals, evalSort_eq rng f vals T hT sDescending st,
      sortKids_vals_perm sDescending vals, sortKids_sorted_desc vals,
      (sortKids_vals_perm sDescending vals).sum_eq, ?_⟩
    have hident := sortKids_extract sDescending vals
    have hdr : diceRolled ((sortKids sDescending vals).map extractRoll) T =
        Node.mk .Dice (sortKids sDescending vals) [(kValue, Value.ofInt T)] := by
      rw [diceRolled, hident]
    have h := evalSort_eq rng f ((sortKids sDescending vals).map extractRoll) T hT
      sDescending st
    rw [hdr] at h
    have hidem : sortKids sDescending ((sortKids sDescending vals).map extractRoll) =
        sortKids sDescending vals := by
      rw [sortKids_idem_desc _ (by rw [hident]; exact sortKids_sorted_desc vals), hident]
    rw [hidem] at h
    have hsums : ((((sortKids sDescending vals).map extractRoll)).map contribInt).sum =
        (vals.map contribInt).sum :=
      ((sortKids_extract_perm sDescending vals).map contribInt).sum_eq
    rw [hsums] at h
    exact h

/-- Witness for C7: ascending sort of three rolled dice (3, 1, 2). -/
theorem c7_sort_spec_witness :
    (7 : ℤ) ≠ 0 ∧
    ∃ kids' : List Node,
      evalCore rngLo 2 (mkSortNode sAscending
          (diceRolled [(3, false), (1, false), (2, false)] 7)) { idx := 0, errors := [] } =
        okE (Value.ofInt (([((3 : ℤ), false), (1, false), (2, false)].map contribInt).sum),
             Node.mk .Sort [Node.mk .Dice kids' [(kValue, Value.ofInt 7)]]
               [(kDirection, .str sAscending),
                (kValue, Value.ofInt (([((3 : ℤ), false), (1, false), (2, false)].map
                  contribInt).sum))],
             { idx := 0, errors := [] }) ∧
      (kids'.map rollValInt).Perm ([((3 : ℤ), false), (1, false), (2, false)].map Prod.fst) ∧
      kids'.Pairwise (fun a b =>
        if true then rollValInt a ≤ rollValInt b else rollValInt b ≤ rollValInt a) ∧
      (kids'.map rollValInt).sum =
        ([((3 : ℤ), false), (1, false), (2, false)].map Prod.fst).sum ∧
      evalCore rngLo 2 (mkSortNode sAscending
          (Node.mk .Dice kids' [(kValue, Value.ofInt 7)])) { idx := 0, errors := [] } =
        okE (Value.ofInt (([((3 : ℤ), false), (1, false), (2, false)].map contribInt).sum),
             Node.mk .Sort [Node.mk .Dice kids' [(kValue, Value.ofInt 7)]]
               [(kDirection, .str sAscending),
                (kValue, Value.ofInt (([((3 : ℤ), false), (1, false), (2, false)].map
                  contribInt).sum))],
             { idx := 0, errors := [] }) :=
  ⟨by decide, by
    have h := c7_sort_spec true [(3, false), (1, false), (2, false)] 7 (by decide)
      rngLo 0 { idx := 0, errors := [] }
    simpa using h⟩

/-- String constant: the string value "highest". -/
def sHighest : String := "highest"

/-- Whether a DiceRoll leaf is currently marked dropped. -/
def nodeDropped (c : Node) : Bool := jsStrictEq (c.getAttr kDrop) (.str sYes)

/-- A keep-highest-N modifier over an already-rolled dice node. -/
def keepHN (vals : List (ℤ × Bool)) (N T : ℤ) : Node :=
  Node.mk .Keep [diceRolled vals T, intNode N] [(kType, .str sHighest)]

/-- The sorted position-tagged rolls the Keep modifier works on. -/
def keepSorted (vals : List (ℤ × Bool)) : List (ℕ × Node) :=
  sortPairs contDesc ((List.range vals.length).zip (vals.map fun p => dieN p.1 p.2))

theorem evaluateKeep_eq (rng : RandomProvider) (f : ℕ) (vals : List (ℤ × Bool)) (N T : ℤ)
    (hT : T ≠ 0) (st : EvalSt) :
    evaluateKeep (evalCore rng (f + 1)) (f + 1) (keepHN vals N T) st =
      okE ((markKeep (Value.ofInt N) (keepSorted vals) 0 (Value.ofInt 0)).2,
           Node.mk .Keep
             [applyMarks (diceRolled vals T)
               (markKeep (Value.ofInt N) (keepSorted vals) 0 (Value.ofInt 0)).1, intNode N]
             [(kType, .str sHighest)],
           st) := by
  rw [evaluateKeep]
  have hcc : expectCC (keepHN vals N T) 1 = okE () := rfl
  rw [hcc, bindE_ok]
  have hne : (keepHN vals N T).type ≠ .Dice := by
    rw [show (keepHN vals N T).type = .Keep from rfl]
    decide
  have hccflm : ¬ (keepHN vals N T).childCount < 1 := by
    simp [keepHN, Node.childCount, Node.children]
  rw [flm_modifier rng f st (keepHN vals N T) vals T hne rfl hccflm hT rfl, bindE_ok]
  show bindE (if 1 < (keepHN vals N T).childCount then
      evalChildAt (evalCore rng (f + 1)) (keepHN vals N T) 1 st
    else okE (Value.ofInt 1, keepHN vals N T, st)) _ = _
  rw [if_pos (by simp [keepHN, Node.childCount, Node.children] : 
    1 < (keepHN vals N T).childCount)]
  rw [evalChildAt]
  have hc1 : (keepHN vals N T).getChild 1 = some (intNode N) := rfl
  rw [hc1]
  show bindE (bindE (evalCore rng (f + 1) (intNode N) st) fun r =>
      okE (r.1, (keepHN vals N T).setChildAt 1 r.2.1, r.2.2)) _ = _
  rw [evalCore_int, bindE_ok]
  show bindE (okE (Value.ofInt N, (keepHN vals N T).setChildAt 1 (intNode N), st)) _ = _
  rw [show (keepHN vals N T).setChildAt 1 (intNode N) = keepHN vals N T from rfl, bindE_ok]
  have hdirn : jsStrictEq ((keepHN vals N T).getAttr kType) (.str sLowest) = false := by
    rw [show (keepHN vals N T).getAttr kType = .str sHighest from rfl]
    simp [jsStrictEq, sHighest, sLowest]
  show (match (keepHN vals N T).subtreeAt0 1 with
    | none => throwE nullNodeMsg
    | some dice0 =>
      bindE (evalCore rng (f + 1) dice0 st) fun d =>
      bindE (sortedRollsE (evalCore rng (f + 1)) d.2.1
        (if jsStrictEq ((keepHN vals N T).getAttr kType) (.str sLowest) then
          Value.str sAscending else .str sDescending) d.2.2) fun s =>
      okE ((markKeep (Value.ofInt N) s.2.1 0 (Value.ofInt 0)).2,
        (keepHN vals N T).updateAt0 1
          (applyMarks s.1 (markKeep (Value.ofInt N) s.2.1 0 (Value.ofInt 0)).1),
        s.2.2.2)) = _
  rw [show (keepHN vals N T).subtreeAt0 1 = some (diceRolled vals T) from rfl]
  have hmemo : evalCore rng (f + 1) (diceRolled vals T) st =
      okE (Value.ofInt T, diceRolled vals T, st) := by
    have h := evalMemo rng f st (diceRolled vals T)
      (by rw [diceRolled_type]; decide)
      (by rw [getAttr_diceRolled, truthy_ofInt]; simp [hT])
    rw [getAttr_diceRolled] at h
    exact h
  show bindE (evalCore rng (f + 1) (diceRolled vals T) st) _ = _
  rw [hmemo, bindE_ok, hdirn]
  simp only [Bool.false_eq_true, if_false]
  unfold sortedRollsE
  have h6 : (diceRolled vals T).childCount = vals.length := by
    simp [diceRolled, Node.childCount, Node.children]
  rw [h6]
  rw [collectRolls_spec rng f vals T vals.length 0 (by omega) 0 st, bindE_ok]
  have hcond : jsStrictEq (Value.str sDescending) (.str sDescending) = true := by
    simp [jsStrictEq]
  rw [hcond]
  simp only [if_true]
  rw [h6, show (diceRolled vals T).children = vals.map fun p => dieN p.1 p.2 from rfl]
  rfl

theorem evalKeep_eq (rng : RandomProvider) (f : ℕ) (vals : List (ℤ × Bool)) (N T : ℤ)
    (hT : T ≠ 0) (st : EvalSt) :
    evalCore rng (f + 2) (keepHN vals N T) st =
      okE ((markKeep (Value.ofInt N) (keepSorted vals) 0 (Value.ofInt 0)).2,
           Node.mk .Keep
             [applyMarks (diceRolled vals T)
               (markKeep (Value.ofInt N) (keepSorted vals) 0 (Value.ofInt 0)).1, intNode N]
             [(kType, .str sHighest),
              (kValue, (markKeep (Value.ofInt N) (keepSorted vals) 0 (Value.ofInt 0)).2)],
           st) := by
  have h0 : evalCore rng (f + 2) (keepHN vals N T) st =
      evalStep rng (evalCore rng (f + 1)) (f + 1) (keepHN vals N T) st := rfl
  rw [h0, evalStep]
  have h1 : ((keepHN vals N T).type = NodeType.DiceRoll) = False := by
    simp [keepHN, Node.type]
  have h2 : ((keepHN vals N T).getAttr kValue).truthy = false := rfl
  simp only [h1, h2, if_false, Bool.false_eq_true]
  have h3 : (keepHN vals N T).type = .Keep := rfl
  rw [h3]
  rw [evaluateKeep_eq rng f vals N T hT st]
  rfl

/-- C5 counterexample, concrete run: keep-highest-2 applied to an
already-rolled 3d9 whose children carry values 5 (already dropped), 3
and 1.  The claim's ordering of the NON-already-dropped children would
keep 3 and 1 (total 4) and leave the 5 dropped; the code sorts and
marks ALL children, so it un-drops the 5, keeps 5 and 3, and totals
8. -/
theorem c5_keep_predropped_counterexample :
    evalCore rngLo 2 (keepHN [(5, true), (3, false), (1, false)] 2 9) ⟨0, []⟩ =
      okE (Value.ofInt 8,
           Node.mk .Keep
             [diceRolled [(5, false), (3, false), (1, true)] 9, intNode 2]
             [(kType, .str sHighest), (kValue, Value.ofInt 8)],
           ⟨0, []⟩) ∧
    nodeDropped (dieN 5 true) = true ∧ Value.ofInt 8 ≠ Value.ofInt 4 := by
  refine ⟨rfl, rfl, by decide⟩

/-- The Keep marking loop splits the sorted roll list at position
`countTotal - count`: everything before is marked kept, everything
after dropped. -/
theorem markKeep_marks (N : ℤ) (hN : 0 ≤ N) :
    ∀ (ps : List (ℕ × Node)) (c : ℕ) (t : Value),
      (markKeep (Value.ofInt N) ps c t).1 =
        (ps.take (N.toNat - c)).map
          (fun p => (p.1, p.2.setAttr kDrop (Value.str sNo))) ++
        (ps.drop (N.toNat - c)).map
          (fun p => (p.1, p.2.setAttr kDrop (Value.str sYes)))
  | [], c, t => by simp [markKeep]
  | (i, nd) :: rest, c, t => by
    rw [markKeep, jsLt_ofInt]
    by_cases h : (c : ℤ) < N
    · rw [if_pos (by simpa using h)]
      have hk : N.toNat - c = (N.toNat - (c + 1)) + 1 := by omega
      rw [hk]
      simp only [List.take_succ_cons, List.drop_succ_cons, List.map_cons, List.cons_append]
      rw [markKeep_marks N hN rest (c + 1) (jsAdd t (nd.getAttr kValue))]
    · rw [if_neg (by simpa using h)]
      have hk : N.toNat - c = 0 := by omega
      have hk1 : N.toNat - (c + 1) = 0 := by omega
      rw [hk]
      simp only [List.take_zero, List.drop_zero, List.map_nil, List.nil_append,
        List.map_cons]
      rw [markKeep_marks N hN rest (c + 1) t, hk1]
      simp

/-- The Keep marking loop's running total: the sum of the kept
prefix's values. -/
theorem markKeep_total (N : ℤ) (hN : 0 ≤ N) :
    ∀ (ps : List (ℕ × Node)), (∀ p ∈ ps, hasIntVal p.2) → ∀ (c : ℕ) (t : ℤ),
      (markKeep (Value.ofInt N) ps c (Value.ofInt t)).2 =
        Value.ofInt (t + (((ps.take (N.toNat - c)).map fun p => rollValInt p.2).sum))
  | [], _, c, t => by simp [markKeep]
  | (i, nd) :: rest, hmem, c, t => by
    rw [markKeep, jsLt_ofInt]
    obtain ⟨v, hv⟩ := hmem (i, nd) (by simp)
    by_cases h : (c : ℤ) < N
    · rw [if_pos (by simpa using h)]
      have hk : N.toNat - c = (N.toNat - (c + 1)) + 1 := by omega
      rw [hk]
      simp only [List.take_succ_cons, List.map_cons, List.sum_cons]
      rw [hv, jsAdd_ofInt]
      rw [markKeep_total N hN rest (fun p hp => hmem p (by simp [hp])) (c + 1) (t + v)]
      rw [rollValInt_of hv]
      ring_nf
    · rw [if_neg (by simpa using h)]
      have hk : N.toNat - c = 0 := by omega
      have hk1 : N.toNat - (c + 1) = 0 := by omega
      rw [hk]
      simp only [List.take_zero, List.map_nil, List.sum_nil, add_zero]
      rw [markKeep_total N hN rest (fun p hp => hmem p (by simp [hp])) (c + 1) t, hk1]
      simp

theorem keepSorted_hasIntVal (vals : List (ℤ × Bool)) :
    ∀ p ∈ keepSorted vals, hasIntVal p.2 := by
  intro p hp
  have hmem := (sortPairs_perm contDesc _).mem_iff.mp hp
  exact hasIntVal_of_mem_kids (List.of_mem_zip hmem).2

theorem keepSorted_vals_perm (vals : List (ℤ × Bool)) :
    ((keepSorted vals).map fun p => rollValInt p.2).Perm (vals.map Prod.fst) := by
  have h1 := (sortPairs_perm contDesc
    ((List.range vals.length).zip (vals.map fun p => dieN p.1 p.2))).map
    fun p : ℕ × Node => rollValInt p.2
  have h2 : (((List.range vals.length).zip (vals.map fun p => dieN p.1 p.2)).map
      fun p : ℕ × Node => rollValInt p.2) = vals.map Prod.fst := by
    have h3 : (((List.range vals.length).zip (vals.map fun p => dieN p.1 p.2)).map
        Prod.snd).map rollValInt = (vals.map fun p => dieN p.1 p.2).map rollValInt := by
      rw [map_snd_zip_len _ _ (by simp)]
    rw [List.map_map] at h3
    rw [show (rollValInt ∘ Prod.snd : ℕ × Node → ℤ) =
      fun p : ℕ × Node => rollValInt p.2 from rfl] at h3
    rw [h3, List.map_map]
    exact List.map_congr_left fun p _ => rollValInt_dieN p.1 p.2
  rw [h2] at h1
  exact h1

theorem keepSorted_sorted (vals : List (ℤ × Bool)) :
    (keepSorted vals).Pairwise fun a b => rollValInt b.2 ≤ rollValInt a.2 := by
  have hvmem : ∀ p ∈ (List.range vals.length).zip (vals.map fun q => dieN q.1 q.2),
      hasIntVal p.2 := fun p hp => hasIntVal_of_mem_kids (List.of_mem_zip hp).2
  exact sortPairs_sorted_desc _ hvmem

/-- The token stream of the expression `(1/0)d6`. -/
def toksC8 : List Token :=
  [⟨.ParenthesisOpen, 0, emp⟩, ⟨.Integer, 1, n1⟩, ⟨.Slash, 2, emp⟩,
   ⟨.Integer, 3, n0⟩, ⟨.ParenthesisClose, 4, emp⟩, ⟨.Identifier, 5, dletter⟩,
   ⟨.Integer, 6, n6⟩]
where
  n1 : String := "1"
  n0 : String := "0"
  n6 : String := "6"
  dletter : String := "d"
  emp : String := ""

/-- Evaluating the dice node of `(1/0)d6` runs out of any amount of
fuel: the count operand evaluates to Infinity (JS `1/0`), `iterCount`
of Infinity is `none` (the JS `for` loop `i < Infinity` never ends),
so `evaluate` diverges. -/
theorem evalDiceDivNone (rng : RandomProvider) (st : EvalSt) :
    ∀ fuel : ℕ, evalCore rng fuel (diceC (divNode 1 0) 6) st = none
  | 0 => rfl
  | 1 => rfl
  | 2 => rfl
  | (f + 3) => by
    have h1 : evalCore rng (f + 3) (diceC (divNode 1 0) 6) st =
        evalStep rng (evalCore rng (f + 2)) (f + 2) (diceC (divNode 1 0) 6) st := rfl
    rw [h1, evalStep]
    have ht : ((diceC (divNode 1 0) 6).type = NodeType.DiceRoll) = False := by
      simp [diceC, Node.type]
    have hv : ((diceC (divNode 1 0) 6).getAttr kValue).truthy = false := rfl
    simp only [ht, hv, if_false, Bool.false_eq_true]
    have hd : (diceC (divNode 1 0) 6).type = NodeType.Dice := rfl
    rw [hd, evaluateDice]
    have hcc : expectCC (diceC (divNode 1 0) 6) 2 = okE () := rfl
    rw [hcc]
    simp only [bindE, okE]
    have hc0 : (diceC (divNode 1 0) 6).getChild 0 = some (divNode 1 0) := rfl
    have hC := evalDivInt rng f 1 0 st
    simp only [evalChildAt, hc0, hC, bindE, okE]
    have hdiv : jsDiv (Value.ofInt 1) (Value.ofInt 0) = Value.inf := rfl
    rw [hdiv]
    have hc1 : ((diceC (divNode 1 0) 6).setChildAt 0
        (Node.mk .Divide [intNode 1, intNode 0] [(kValue, Value.inf)])).getChild 1 =
        some (sidesNode 6) := rfl
    simp only [hc1, evalCore_sides, bindE, okE]
    rfl

/-- C8 counterexample: the parser-produced AST of `(1/0)d6` (no parse
errors) and the contract-respecting provider `rngLo` give an
evaluation that terminates for NO amount of fuel: the roll-count
operand evaluates to Infinity and the dice-rolling `for` loop never
finishes.  `evaluate` is not total on parser-produced ASTs. -/
theorem c8_divergence_counterexample :
    parseTokens 30 toksC8 = some (diceC (divNode 1 0) 6, { toks := [], perrs := [] }) ∧
    RngOk rngLo ∧
    ∀ fuel : ℕ, evalCore rngLo fuel (diceC (divNode 1 0) 6) ⟨0, []⟩ = none :=
  ⟨rfl, rngLo_ok, evalDiceDivNone rngLo ⟨0, []⟩⟩

theorem jsNeg_ofInt (v : ℤ) : jsNeg (Value.ofInt v) = Value.ofInt (-v) := by
  simp [jsNeg, Value.ofInt, Value.toNumber, JsQ.neg, JsQ.ofInt]

/-- Evaluating an Add node from two child evaluations: both children
are evaluated left to right, replaced in the node, and the value is
the JS sum (then memoized into the `value` attribute). -/
theorem evalAdd_eq (rng : RandomProvider) (k : ℕ) (a b a2 b2 : Node) (va vb : ℤ)
    (st st1 st2 : EvalSt)
    (ha : evalCore rng k a st = okE (Value.ofInt va, a2, st1))
    (hb : evalCore rng k b st1 = okE (Value.ofInt vb, b2, st2)) :
    evalCore rng (k + 1) (Node.mk .Add [a, b] []) st =
      okE (Value.ofInt (va + vb),
           Node.mk .Add [a2, b2] [(kValue, Value.ofInt (va + vb))], st2) := by
  have h1 : evalCore rng (k + 1) (Node.mk .Add [a, b] []) st =
      evalStep rng (evalCore rng k) k (Node.mk .Add [a, b] []) st := rfl
  rw [h1, evalStep]
  have ht : ((Node.mk .Add [a, b] []).type = NodeType.DiceRoll) = False := by
    simp [Node.type]
  have hv : ((Node.mk .Add [a, b] []).getAttr kValue).truthy = false := rfl
  simp only [ht, hv, if_false, Bool.false_eq_true, Node.type]
  have hcc : expectCC (Node.mk .Add [a, b] []) 2 = okE () := rfl
  rw [hcc]
  simp only [bindE, okE]
  have hc0 : (Node.mk .Add [a, b] []).getChild 0 = some a := rfl
  simp only [evalChildAt, hc0, ha, bindE, okE]
  have hset0 : (Node.mk .Add [a, b] []).setChildAt 0 a2 = Node.mk .Add [a2, b] [] := rfl
  rw [hset0]
  have hc1 : (Node.mk .Add [a2, b] []).getChild 1 = some b := rfl
  simp only [hc1, hb, bindE, okE, jsAdd_ofInt]
  rfl

/-- Evaluating a Negate node from its child's evaluation. -/
theorem evalNeg_eq (rng : RandomProvider) (k : ℕ) (a a2 : Node) (va : ℤ)
    (st st1 : EvalSt)
    (ha : evalCore rng k a st = okE (Value.ofInt va, a2, st1)) :
    evalCore rng (k + 1) (Node.mk .Negate [a] []) st =
      okE (Value.ofInt (-va),
           Node.mk .Negate [a2] [(kValue, Value.ofInt (-va))], st1) := by
  have h1 : evalCore rng (k + 1) (Node.mk .Negate [a] []) st =
      evalStep rng (evalCore rng k) k (Node.mk .Negate [a] []) st := rfl
  rw [h1, evalStep]
  have ht : ((Node.mk .Negate [a] []).type = NodeType.DiceRoll) = False := by
    simp [Node.type]
  have hv : ((Node.mk .Negate [a] []).getAttr kValue).truthy = false := rfl
  simp only [ht, hv, if_false, Bool.false_eq_true, Node.type]
  have hcc : expectCC (Node.mk .Negate [a] []) 1 = okE () := rfl
  rw [hcc]
  simp only [bindE, okE]
  have hc0 : (Node.mk .Negate [a] []).getChild 0 = some a := rfl
  simp only [evalChildAt, hc0, ha, bindE, okE, jsNeg_ofInt]
  rfl

/-- The terminating fragment: expressions built from integer
literals, literal dice rolls `nds`, sums and negations (no division,
so no Infinity roll counts; no Explode/Reroll loops). -/
inductive GoodTree where
  | int (n : ℤ)
  | dice (n s : ℤ)
  | add (a b : GoodTree)
  | neg (a : GoodTree)

/-- The AST of a `GoodTree` expression. -/
def GoodTree.toNode : GoodTree → Node
  | .int n => intNode n
  | .dice n s => diceNode n s
  | .add a b => Node.mk .Add [a.toNode, b.toNode] []
  | .neg a => Node.mk .Negate [a.toNode] []

/-- Reference evaluation of a `GoodTree`: value, expanded tree, and
next provider call index. -/
def refEval (rng : RandomProvider) : GoodTree → ℕ → ℤ × Node × ℕ
  | .int n, i => (n, intNode n, i)
  | .dice n s, i =>
    (rollSum rng s i n.toNat,
     Node.mk .Dice (rollKids rng s i n.toNat)
       [(kSides, Value.ofInt s), (kValue, Value.ofInt (rollSum rng s i n.toNat))],
     i + n.toNat)
  | .add a b, i =>
    let ra := refEval rng a i
    let rb := refEval rng b ra.2.2
    (ra.1 + rb.1,
     Node.mk .Add [ra.2.1, rb.2.1] [(kValue, Value.ofInt (ra.1 + rb.1))],
     rb.2.2)
  | .neg a, i =>
    let ra := refEval rng a i
    (-ra.1, Node.mk .Negate [ra.2.1] [(kValue, Value.ofInt (-ra.1))], ra.2.2)

/-- Fuel sufficient to evaluate a `GoodTree` (one unit per tree
level, one extra for the dice-roll children). -/
def needFuel : GoodTree → ℕ
  | .int _ => 1
  | .dice _ _ => 2
  | .add a b => max (needFuel a) (needFuel b) + 1
  | .neg a => needFuel a + 1

/-- C8 (amended): on the division-free, modifier-free fragment —
integer literals, literal dice rolls, sums and negations — `evaluate`
does terminate: any fuel of at least the tree's depth-based bound
yields the reference result (so the fuel-free JS original returns).
The unamended claim is refuted by `(1/0)d6`, whose Infinity roll
count makes the dice loop run forever, and by always-true
explode/reroll conditions. -/
theorem c8_termination_amended (g : GoodTree) : ∀ (rng : RandomProvider) (f : ℕ),
    needFuel g ≤ f → ∀ (i : ℕ) (errs : List String),
    evalCore rng f g.toNode ⟨i, errs⟩ =
      okE (Value.ofInt (refEval rng g i).1, (refEval rng g i).2.1,
           ⟨(refEval rng g i).2.2, errs⟩) := by
  induction g with
  | int n =>
    intro rng f hf i errs
    obtain ⟨k, rfl⟩ : ∃ k, f = k + 1 := ⟨f - 1, by simp [needFuel] at hf; omega⟩
    show evalCore rng (k + 1) (intNode n) ⟨i, errs⟩ = _
    rw [evalCore_int]
    rfl
  | dice n s =>
    intro rng f hf i errs
    obtain ⟨k, rfl⟩ : ∃ k, f = k + 2 := ⟨f - 2, by simp [needFuel] at hf; omega⟩
    show evalCore rng (k + 2) (diceNode n s) ⟨i, errs⟩ = _
    rw [evalDice_spec]
    rfl
  | add a b iha ihb =>
    intro rng f hf i errs
    simp only [needFuel] at hf
    obtain ⟨k, rfl⟩ : ∃ k, f = k + 1 := ⟨f - 1, by omega⟩
    have ha := iha rng k (by omega) i errs
    have hb := ihb rng k (by omega) (refEval rng a i).2.2 errs
    show evalCore rng (k + 1) (Node.mk .Add [a.toNode, b.toNode] []) ⟨i, errs⟩ = _
    rw [evalAdd_eq rng k a.toNode b.toNode (refEval rng a i).2.1
      (refEval rng b (refEval rng a i).2.2).2.1 (refEval rng a i).1
      (refEval rng b (refEval rng a i).2.2).1 ⟨i, errs⟩
      ⟨(refEval rng a i).2.2, errs⟩
      ⟨(refEval rng b (refEval rng a i).2.2).2.2, errs⟩ ha hb]
    rfl
  | neg a iha =>
    intro rng f hf i errs
    simp only [needFuel] at hf
    obtain ⟨k, rfl⟩ : ∃ k, f = k + 1 := ⟨f - 1, by omega⟩
    have ha := iha rng k (by omega) i errs
    show evalCore rng (k + 1) (Node.mk .Negate [a.toNode] []) ⟨i, errs⟩ = _
    rw [evalNeg_eq rng k a.toNode (refEval rng a i).2.1 (refEval rng a i).1
      ⟨i, errs⟩ ⟨(refEval rng a i).2.2, errs⟩ ha]
    rfl

theorem c8_termination_amended_witness :
    needFuel (.add (.dice 2 6) (.neg (.int 1))) ≤ 4 ∧
    evalCore rngLo 4 (GoodTree.toNode (.add (.dice 2 6) (.neg (.int 1)))) ⟨0, []⟩ =
      okE (Value.ofInt (refEval rngLo (.add (.dice 2 6) (.neg (.int 1))) 0).1,
           (refEval rngLo (.add (.dice 2 6) (.neg (.int 1))) 0).2.1,
           ⟨(refEval rngLo (.add (.dice 2 6) (.neg (.int 1))) 0).2.2, []⟩) :=
  ⟨by decide,
   c8_termination_amended (.add (.dice 2 6) (.neg (.int 1))) rngLo 4 (by decide) 0 []⟩

/-- A Keep or Drop modifier node with an explicit count operand over
an already-rolled dice node, carrying an arbitrary `type` attribute
(`"highest"`, `"lowest"`, or anything else — the code only ever
compares it against `"lowest"`). -/
def modDiceN (nt : NodeType) (ty : String) (vals : List (ℤ × Bool)) (N T : ℤ) : Node :=
  Node.mk nt [diceRolled vals T, intNode N] [(kType, .str ty)]

/-- A Keep or Drop modifier node with NO count operand (the count then
defaults to 1 in `evaluateKeep`/`evaluateDrop`). -/
def modDice1 (nt : NodeType) (ty : String) (vals : List (ℤ × Bool)) (T : ℤ) : Node :=
  Node.mk nt [diceRolled vals T] [(kType, .str ty)]

/-- The position-tagged rolls in the order the Keep/Drop marking loop
visits them: ascending by value when the `type` attribute is exactly
`"lowest"`, descending otherwise (the `(type === "lowest") ?
"ascending" : "descending"` of lines 185 and 208). -/
def dirSorted (ty : String) (vals : List (ℤ × Bool)) : List (ℕ × Node) :=
  if ty = sLowest then
    sortPairs contAsc ((List.range vals.length).zip (vals.map fun p => dieN p.1 p.2))
  else
    sortPairs contDesc ((List.range vals.length).zip (vals.map fun p => dieN p.1 p.2))

/-- The marks Keep writes: the first `k` sorted rolls get
`drop = "no"`, the rest `drop = "yes"`. -/
def keepMarksOut (sorted : List (ℕ × Node)) (k : ℕ) : List (ℕ × Node) :=
  (sorted.take k).map (fun p => (p.1, p.2.setAttr kDrop (Value.str sNo))) ++
  (sorted.drop k).map (fun p => (p.1, p.2.setAttr kDrop (Value.str sYes)))

/-- The marks Drop writes: the first `k` sorted rolls get
`drop = "yes"`, the rest `drop = "no"`. -/
def dropMarksOut (sorted : List (ℕ × Node)) (k : ℕ) : List (ℕ × Node) :=
  (sorted.take k).map (fun p => (p.1, p.2.setAttr kDrop (Value.str sYes))) ++
  (sorted.drop k).map (fun p => (p.1, p.2.setAttr kDrop (Value.str sNo)))

/-- The sum of the first `k` sorted roll values (Keep's total). -/
def rollsTakeSum (sorted : List (ℕ × Node)) (k : ℕ) : ℤ :=
  ((sorted.take k).map fun p => rollValInt p.2).sum

/-- The sum of the roll values after the first `k` (Drop's total). -/
def rollsDropSum (sorted : List (ℕ × Node)) (k : ℕ) : ℤ :=
  ((sorted.drop k).map fun p => rollValInt p.2).sum

theorem sortZip_hasIntVal (cont : Node → Node → Bool) (vals : List (ℤ × Bool)) :
    ∀ p ∈ sortPairs cont ((List.range vals.length).zip (vals.map fun q => dieN q.1 q.2)),
      hasIntVal p.2 := by
  intro p hp
  have hmem := (sortPairs_perm cont _).mem_iff.mp hp
  exact hasIntVal_of_mem_kids (List.of_mem_zip hmem).2

theorem dirSorted_hasIntVal (ty : String) (vals : List (ℤ × Bool)) :
    ∀ p ∈ dirSorted ty vals, hasIntVal p.2 := by
  unfold dirSorted
  split_ifs
  · exact sortZip_hasIntVal contAsc vals
  · exact sortZip_hasIntVal contDesc vals

theorem sortZip_vals_perm (cont : Node → Node → Bool) (vals : List (ℤ × Bool)) :
    ((sortPairs cont ((List.range vals.length).zip (vals.map fun p => dieN p.1 p.2))).map
      fun p => rollValInt p.2).Perm (vals.map Prod.fst) := by
  have h1 := (sortPairs_perm cont
    ((List.range vals.length).zip (vals.map fun p => dieN p.1 p.2))).map
    fun p : ℕ × Node => rollValInt p.2
  have h2 : (((List.range vals.length).zip (vals.map fun p => dieN p.1 p.2)).map
      fun p : ℕ × Node => rollValInt p.2) = vals.map Prod.fst := by
    have h3 : (((List.range vals.length).zip (vals.map fun p => dieN p.1 p.2)).map
        Prod.snd).map rollValInt = (vals.map fun p => dieN p.1 p.2).map rollValInt := by
      rw [map_snd_zip_len _ _ (by simp)]
    rw [List.map_map] at h3
    rw [show (rollValInt ∘ Prod.snd : ℕ × Node → ℤ) =
      fun p : ℕ × Node => rollValInt p.2 from rfl] at h3
    rw [h3, List.map_map]
    exact List.map_congr_left fun p _ => rollValInt_dieN p.1 p.2
  rw [h2] at h1
  exact h1

theorem dirSorted_vals_perm (vals : List (ℤ × Bool)) : ∀ ty : String,
    ((dirSorted ty vals).map fun p => rollValInt p.2).Perm (vals.map Prod.fst) := by
  intro ty
  unfold dirSorted
  split_ifs
  · exact sortZip_vals_perm contAsc vals
  · exact sortZip_vals_perm contDesc vals

theorem dirSorted_sorted_desc (ty : String) (hty : ty ≠ sLowest) (vals : List (ℤ × Bool)) :
    (dirSorted ty vals).Pairwise fun a b => rollValInt b.2 ≤ rollValInt a.2 := by
  unfold dirSorted
  rw [if_neg hty]
  have hvmem : ∀ p ∈ (List.range vals.length).zip (vals.map fun q => dieN q.1 q.2),
      hasIntVal p.2 := fun p hp => hasIntVal_of_mem_kids (List.of_mem_zip hp).2
  exact sortPairs_sorted_desc _ hvmem

theorem dirSorted_sorted_asc (vals : List (ℤ × Bool)) :
    (dirSorted sLowest vals).Pairwise fun a b => rollValInt a.2 ≤ rollValInt b.2 := by
  unfold dirSorted
  rw [if_pos rfl]
  have hvmem : ∀ p ∈ (List.range vals.length).zip (vals.map fun q => dieN q.1 q.2),
      hasIntVal p.2 := fun p hp => hasIntVal_of_mem_kids (List.of_mem_zip hp).2
  exact sortPairs_sorted_asc _ hvmem

/-- The Drop marking loop splits the sorted roll list at position
`countTotal - count`: everything before is dropped, everything after
kept. -/
theorem markDrop_marks (N : ℤ) (hN : 0 ≤ N) :
    ∀ (ps : List (ℕ × Node)) (c : ℕ) (t : Value),
      (markDrop (Value.ofInt N) ps c t).1 =
        (ps.take (N.toNat - c)).map
          (fun p => (p.1, p.2.setAttr kDrop (Value.str sYes))) ++
        (ps.drop (N.toNat - c)).map
          (fun p => (p.1, p.2.setAttr kDrop (Value.str sNo)))
  | [], c, t => by simp [markDrop]
  | (i, nd) :: rest, c, t => by
    rw [markDrop, jsLt_ofInt]
    by_cases h : (c : ℤ) < N
    · rw [if_pos (by simpa using h)]
      have hk : N.toNat - c = (N.toNat - (c + 1)) + 1 := by omega
      rw [hk]
      simp only [List.take_succ_cons, List.drop_succ_cons, List.map_cons, List.cons_append]
      rw [markDrop_marks N hN rest (c + 1) t]
    · rw [if_neg (by simpa using h)]
      have hk : N.toNat - c = 0 := by omega
      have hk1 : N.toNat - (c + 1) = 0 := by omega
      rw [hk]
      simp only [List.take_zero, List.drop_zero, List.map_nil, List.nil_append,
        List.map_cons]
      rw [markDrop_marks N hN rest (c + 1) (jsAdd t (nd.getAttr kValue)), hk1]
      simp

/-- The Drop marking loop's running total: the sum of the kept
suffix's values. -/
theorem markDrop_total (N : ℤ) (hN : 0 ≤ N) :
    ∀ (ps : List (ℕ × Node)), (∀ p ∈ ps, hasIntVal p.2) → ∀ (c : ℕ) (t : ℤ),
      (markDrop (Value.ofInt N) ps c (Value.ofInt t)).2 =
        Value.ofInt (t + (((ps.drop (N.toNat - c)).map fun p => rollValInt p.2).sum))
  | [], _, c, t => by simp [markDrop]
  | (i, nd) :: rest, hmem, c, t => by
    rw [markDrop, jsLt_ofInt]
    obtain ⟨v, hv⟩ := hmem (i, nd) (by simp)
    by_cases h : (c : ℤ) < N
    · rw [if_pos (by simpa using h)]
      have hk : N.toNat - c = (N.toNat - (c + 1)) + 1 := by omega
      rw [hk]
      simp only [List.drop_succ_cons]
      rw [markDrop_total N hN rest (fun p hp => hmem p (by simp [hp])) (c + 1) t]
    · rw [if_neg (by simpa using h)]
      have hk : N.toNat - c = 0 := by omega
      have hk1 : N.toNat - (c + 1) = 0 := by omega
      rw [hk]
      simp only [List.drop_zero, List.map_cons, List.sum_cons]
      rw [hv, jsAdd_ofInt]
      rw [markDrop_total N hN rest (fun p hp => hmem p (by simp [hp])) (c + 1) (t + v)]
      rw [rollValInt_of hv, hk1]
      simp only [List.drop_zero]
      ring_nf

theorem evaluateKeepN_eq (rng : RandomProvider) (f : ℕ) (vals : List (ℤ × Bool)) (N T : ℤ)
    (hT : T ≠ 0) (ty : String) (st : EvalSt) :
    evaluateKeep (evalCore rng (f + 1)) (f + 1) (modDiceN .Keep ty vals N T) st =
      okE ((markKeep (Value.ofInt N) (dirSorted ty vals) 0 (Value.ofInt 0)).2,
           Node.mk .Keep
             [applyMarks (diceRolled vals T)
               (markKeep (Value.ofInt N) (dirSorted ty vals) 0 (Value.ofInt 0)).1, intNode N]
             [(kType, .str ty)],
           st) := by
  rw [evaluateKeep]
  have hcc : expectCC (modDiceN .Keep ty vals N T) 1 = okE () := rfl
  rw [hcc, bindE_ok]
  have hne : (modDiceN .Keep ty vals N T).type ≠ .Dice := by
    rw [show (modDiceN .Keep ty vals N T).type = .Keep from rfl]
    decide
  have hccflm : ¬ (modDiceN .Keep ty vals N T).childCount < 1 := by
    simp [modDiceN, Node.childCount, Node.children]
  rw [flm_modifier rng f st (modDiceN .Keep ty vals N T) vals T hne rfl hccflm hT rfl, bindE_ok]
  show bindE (if 1 < (modDiceN .Keep ty vals N T).childCount then
      evalChildAt (evalCore rng (f + 1)) (modDiceN .Keep ty vals N T) 1 st
    else okE (Value.ofInt 1, modDiceN .Keep ty vals N T, st)) _ = _
  rw [if_pos (by simp [modDiceN, Node.childCount, Node.children] :
    1 < (modDiceN .Keep ty vals N T).childCount)]
  rw [evalChildAt]
  have hc1 : (modDiceN .Keep ty vals N T).getChild 1 = some (intNode N) := rfl
  rw [hc1]
  show bindE (bindE (evalCore rng (f + 1) (intNode N) st) fun r =>
      okE (r.1, (modDiceN .Keep ty vals N T).setChildAt 1 r.2.1, r.2.2)) _ = _
  rw [evalCore_int, bindE_ok]
  show bindE (okE (Value.ofInt N, (modDiceN .Keep ty vals N T).setChildAt 1 (intNode N), st)) _ = _
  rw [show (modDiceN .Keep ty vals N T).setChildAt 1 (intNode N) =
    modDiceN .Keep ty vals N T from rfl, bindE_ok]
  show (match (modDiceN .Keep ty vals N T).subtreeAt0 1 with
    | none => throwE nullNodeMsg
    | some dice0 =>
      bindE (evalCore rng (f + 1) dice0 st) fun d =>
      bindE (sortedRollsE (evalCore rng (f + 1)) d.2.1
        (if jsStrictEq ((modDiceN .Keep ty vals N T).getAttr kType) (.str sLowest) then
          Value.str sAscending else .str sDescending) d.2.2) fun s =>
      okE ((markKeep (Value.ofInt N) s.2.1 0 (Value.ofInt 0)).2,
        (modDiceN .Keep ty vals N T).updateAt0 1
          (applyMarks s.1 (markKeep (Value.ofInt N) s.2.1 0 (Value.ofInt 0)).1),
        s.2.2.2)) = _
  rw [show (modDiceN .Keep ty vals N T).subtreeAt0 1 = some (diceRolled vals T) from rfl]
  have hmemo : evalCore rng (f + 1) (diceRolled vals T) st =
      okE (Value.ofInt T, diceRolled vals T, st) := by
    have h := evalMemo rng f st (diceRolled vals T)
      (by rw [diceRolled_type]; decide)
      (by rw [getAttr_diceRolled, truthy_ofInt]; simp [hT])
    rw [getAttr_diceRolled] at h
    exact h
  show bindE (evalCore rng (f + 1) (diceRolled vals T) st) _ = _
  rw [hmemo, bindE_ok]
  rw [show (modDiceN .Keep ty vals N T).getAttr kType = .str ty from rfl]
  rw [show jsStrictEq (Value.str ty) (.str sLowest) = decide (ty = sLowest) from rfl]
  have h6 : (diceRolled vals T).childCount = vals.length := by
    simp [diceRolled, Node.childCount, Node.children]
  by_cases hty : ty = sLowest
  · rw [if_pos (by simp [hty])]
    unfold sortedRollsE
    rw [h6, collectRolls_spec rng f vals T vals.length 0 (by omega) 0 st, bindE_ok]
    rw [show jsStrictEq (Value.str sAscending) (.str sDescending) = false from by
      simp [jsStrictEq, sAscending, sDescending]]
    simp only [Bool.false_eq_true, if_false]
    rw [show jsStrictEq (Value.str sAscending) (.str sAscending) = true from by
      simp [jsStrictEq]]
    simp only [if_true]
    rw [h6, show (diceRolled vals T).children = vals.map fun p => dieN p.1 p.2 from rfl]
    unfold dirSorted
    rw [if_pos hty]
    rfl
  · rw [if_neg (by simp [hty])]
    unfold sortedRollsE
    rw [h6, collectRolls_spec rng f vals T vals.length 0 (by omega) 0 st, bindE_ok]
    rw [show jsStrictEq (Value.str sDescending) (.str sDescending) = true from by
      simp [jsStrictEq]]
    simp only [if_true]
    rw [h6, show (diceRolled vals T).children = vals.map fun p => dieN p.1 p.2 from rfl]
    unfold dirSorted
    rw [if_neg hty]
    rfl

theorem evaluateDropN_eq (rng : RandomProvider) (f : ℕ) (vals : List (ℤ × Bool)) (N T : ℤ)
    (hT : T ≠ 0) (ty : String) (st : EvalSt) :
    evaluateDrop (evalCore rng (f + 1)) (f + 1) (modDiceN .Drop ty vals N T) st =
      okE ((markDrop (Value.ofInt N) (dirSorted ty vals) 0 (Value.ofInt 0)).2,
           Node.mk .Drop
             [applyMarks (diceRolled vals T)
               (markDrop (Value.ofInt N) (dirSorted ty vals) 0 (Value.ofInt 0)).1, intNode N]
             [(kType, .str ty)],
           st) := by
  rw [evaluateDrop]
  have hcc : expectCC (modDiceN .Drop ty vals N T) 1 = okE () := rfl
  rw [hcc, bindE_ok]
  have hne : (modDiceN .Drop ty vals N T).type ≠ .Dice := by
    rw [show (modDiceN .Drop ty vals N T).type = .Drop from rfl]
    decide
  have hccflm : ¬ (modDiceN .Drop ty vals N T).childCount < 1 := by
    simp [modDiceN, Node.childCount, Node.children]
  rw [flm_modifier rng f st (modDiceN .Drop ty vals N T) vals T hne rfl hccflm hT rfl, bindE_ok]
  show bindE (if 1 < (modDiceN .Drop ty vals N T).childCount then
      evalChildAt (evalCore rng (f + 1)) (modDiceN .Drop ty vals N T) 1 st
    else okE (Value.ofInt 1, modDiceN .Drop ty vals N T, st)) _ = _
  rw [if_pos (by simp [modDiceN, Node.childCount, Node.children] :
    1 < (modDiceN .Drop ty vals N T).childCount)]
  rw [evalChildAt]
  have hc1 : (modDiceN .Drop ty vals N T).getChild 1 = some (intNode N) := rfl
  rw [hc1]
  show bindE (bindE (evalCore rng (f + 1) (intNode N) st) fun r =>
      okE (r.1, (modDiceN .Drop ty vals N T).setChildAt 1 r.2.1, r.2.2)) _ = _
  rw [evalCore_int, bindE_ok]
  show bindE (okE (Value.ofInt N, (modDiceN .Drop ty vals N T).setChildAt 1 (intNode N), st)) _ = _
  rw [show (modDiceN .Drop ty vals N T).setChildAt 1 (intNode N) =
    modDiceN .Drop ty vals N T from rfl, bindE_ok]
  show (match (modDiceN .Drop ty vals N T).subtreeAt0 1 with
    | none => throwE nullNodeMsg
    | some dice0 =>
      bindE (evalCore rng (f + 1) dice0 st) fun d =>
      bindE (sortedRollsE (evalCore rng (f + 1)) d.2.1
        (if jsStrictEq ((modDiceN .Drop ty vals N T).getAttr kType) (.str sLowest) then
          Value.str sAscending else .str sDescending) d.2.2) fun s =>
      okE ((markDrop (Value.ofInt N) s.2.1 0 (Value.ofInt 0)).2,
        (modDiceN .Drop ty vals N T).updateAt0 1
          (applyMarks s.1 (markDrop (Value.ofInt N) s.2.1 0 (Value.ofInt 0)).1),
        s.2.2.2)) = _
  rw [show (modDiceN .Drop ty vals N T).subtreeAt0 1 = some (diceRolled vals T) from rfl]
  have hmemo : evalCore rng (f + 1) (diceRolled vals T) st =
      okE (Value.ofInt T, diceRolled vals T, st) := by
    have h := evalMemo rng f st (diceRolled vals T)
      (by rw [diceRolled_type]; decide)
      (by rw [getAttr_diceRolled, truthy_ofInt]; simp [hT])
    rw [getAttr_diceRolled] at h
    exact h
  show bindE (evalCore rng (f + 1) (diceRolled vals T) st) _ = _
  rw [hmemo, bindE_ok]
  rw [show (modDiceN .Drop ty vals N T).getAttr kType = .str ty from rfl]
  rw [show jsStrictEq (Value.str ty) (.str sLowest) = decide (ty = sLowest) from rfl]
  have h6 : (diceRolled vals T).childCount = vals.length := by
    simp [diceRolled, Node.childCount, Node.children]
  by_cases hty : ty = sLowest
  · rw [if_pos (by simp [hty])]
    unfold sortedRollsE
    rw [h6, collectRolls_spec rng f vals T vals.length 0 (by omega) 0 st, bindE_ok]
    rw [show jsStrictEq (Value.str sAscending) (.str sDescending) = false from by
      simp [jsStrictEq, sAscending, sDescending]]
    simp only [Bool.false_eq_true, if_false]
    rw [show jsStrictEq (Value.str sAscending) (.str sAscending) = true from by
      simp [jsStrictEq]]
    simp only [if_true]
    rw [h6, show (diceRolled vals T).children = vals.map fun p => dieN p.1 p.2 from rfl]
    unfold dirSorted
    rw [if_pos hty]
    rfl
  · rw [if_neg (by simp [hty])]
    unfold sortedRollsE
    rw [h6, collectRolls_spec rng f vals T vals.length 0 (by omega) 0 st, bindE_ok]
    rw [show jsStrictEq (Value.str sDescending) (.str sDescending) = true from by
      simp [jsStrictEq]]
    simp only [if_true]
    rw [h6, show (diceRolled vals T).children = vals.map fun p => dieN p.1 p.2 from rfl]
    unfold dirSorted
    rw [if_neg hty]
    rfl

theorem evaluateKeep1_eq (rng : RandomProvider) (f : ℕ) (vals : List (ℤ × Bool)) (T : ℤ)
    (hT : T ≠ 0) (ty : String) (st : EvalSt) :
    evaluateKeep (evalCore rng (f + 1)) (f + 1) (modDice1 .Keep ty vals T) st =
      okE ((markKeep (Value.ofInt 1) (dirSorted ty vals) 0 (Value.ofInt 0)).2,
           Node.mk .Keep
             [applyMarks (diceRolled vals T)
               (markKeep (Value.ofInt 1) (dirSorted ty vals) 0 (Value.ofInt 0)).1]
             [(kType, .str ty)],
           st) := by
  rw [evaluateKeep]
  have hcc : expectCC (modDice1 .Keep ty vals T) 1 = okE () := rfl
  rw [hcc, bindE_ok]
  have hne : (modDice1 .Keep ty vals T).type ≠ .Dice := by
    rw [show (modDice1 .Keep ty vals T).type = .Keep from rfl]
    decide
  have hccflm : ¬ (modDice1 .Keep ty vals T).childCount < 1 := by
    simp [modDice1, Node.childCount, Node.children]
  rw [flm_modifier rng f st (modDice1 .Keep ty vals T) vals T hne rfl hccflm hT rfl, bindE_ok]
  show bindE (if 1 < (modDice1 .Keep ty vals T).childCount then
      evalChildAt (evalCore rng (f + 1)) (modDice1 .Keep ty vals T) 1 st
    else okE (Value.ofInt 1, modDice1 .Keep ty vals T, st)) _ = _
  rw [if_neg (by simp [modDice1, Node.childCount, Node.children] :
    ¬ 1 < (modDice1 .Keep ty vals T).childCount)]
  rw [bindE_ok]
  show (match (modDice1 .Keep ty vals T).subtreeAt0 1 with
    | none => throwE nullNodeMsg
    | some dice0 =>
      bindE (evalCore rng (f + 1) dice0 st) fun d =>
      bindE (sortedRollsE (evalCore rng (f + 1)) d.2.1
        (if jsStrictEq ((modDice1 .Keep ty vals T).getAttr kType) (.str sLowest) then
          Value.str sAscending else .str sDescending) d.2.2) fun s =>
      okE ((markKeep (Value.ofInt 1) s.2.1 0 (Value.ofInt 0)).2,
        (modDice1 .Keep ty vals T).updateAt0 1
          (applyMarks s.1 (markKeep (Value.ofInt 1) s.2.1 0 (Value.ofInt 0)).1),
        s.2.2.2)) = _
  rw [show (modDice1 .Keep ty vals T).subtreeAt0 1 = some (diceRolled vals T) from rfl]
  have hmemo : evalCore rng (f + 1) (diceRolled vals T) st =
      okE (Value.ofInt T, diceRolled vals T, st) := by
    have h := evalMemo rng f st (diceRolled vals T)
      (by rw [diceRolled_type]; decide)
      (by rw [getAttr_diceRolled, truthy_ofInt]; simp [hT])
    rw [getAttr_diceRolled] at h
    exact h
  show bindE (evalCore rng (f + 1) (diceRolled vals T) st) _ = _
  rw [hmemo, bindE_ok]
  rw [show (modDice1 .Keep ty vals T).getAttr kType = .str ty from rfl]
  rw [show jsStrictEq (Value.str ty) (.str sLowest) = decide (ty = sLowest) from rfl]
  have h6 : (diceRolled vals T).childCount = vals.length := by
    simp [diceRolled, Node.childCount, Node.children]
  by_cases hty : ty = sLowest
  · rw [if_pos (by simp [hty])]
    unfold sortedRollsE
    rw [h6, collectRolls_spec rng f vals T vals.length 0 (by omega) 0 st, bindE_ok]
    rw [show jsStrictEq (Value.str sAscending) (.str sDescending) = false from by
      simp [jsStrictEq, sAscending, sDescending]]
    simp only [Bool.false_eq_true, if_false]
    rw [show jsStrictEq (Value.str sAscending) (.str sAscending) = true from by
      simp [jsStrictEq]]
    simp only [if_true]
    rw [h6, show (diceRolled vals T).children = vals.map fun p => dieN p.1 p.2 from rfl]
    unfold dirSorted
    rw [if_pos hty]
    rfl
  · rw [if_neg (by simp [hty])]
    unfold sortedRollsE
    rw [h6, collectRolls_spec rng f vals T vals.length 0 (by omega) 0 st, bindE_ok]
    rw [show jsStrictEq (Value.str sDescending) (.str sDescending) = true from by
      simp [jsStrictEq]]
    simp only [if_true]
    rw [h6, show (diceRolled vals T).children = vals.map fun p => dieN p.1 p.2 from rfl]
    unfold dirSorted
    rw [if_neg hty]
    rfl

theorem evaluateDrop1_eq (rng : RandomProvider) (f : ℕ) (vals : List (ℤ × Bool)) (T : ℤ)
    (hT : T ≠ 0) (ty : String) (st : EvalSt) :
    evaluateDrop (evalCore rng (f + 1)) (f + 1) (modDice1 .Drop ty vals T) st =
      okE ((markDrop (Value.ofInt 1) (dirSorted ty vals) 0 (Value.ofInt 0)).2,
           Node.mk .Drop
             [applyMarks (diceRolled vals T)
               (markDrop (Value.ofInt 1) (dirSorted ty vals) 0 (Value.ofInt 0)).1]
             [(kType, .str ty)],
           st) := by
  rw [evaluateDrop]
  have hcc : expectCC (modDice1 .Drop ty vals T) 1 = okE () := rfl
  rw [hcc, bindE_ok]
  have hne : (modDice1 .Drop ty vals T).type ≠ .Dice := by
    rw [show (modDice1 .Drop ty vals T).type = .Drop from rfl]
    decide
  have hccflm : ¬ (modDice1 .Drop ty vals T).childCount < 1 := by
    simp [modDice1, Node.childCount, Node.children]
  rw [flm_modifier rng f st (modDice1 .Drop ty vals T) vals T hne rfl hccflm hT rfl, bindE_ok]
  show bindE (if 1 < (modDice1 .Drop ty vals T).childCount then
      evalChildAt (evalCore rng (f + 1)) (modDice1 .Drop ty vals T) 1 st
    else okE (Value.ofInt 1, modDice1 .Drop ty vals T, st)) _ = _
  rw [if_neg (by simp [modDice1, Node.childCount, Node.children] :
    ¬ 1 < (modDice1 .Drop ty vals T).childCount)]
  rw [bindE_ok]
  show (match (modDice1 .Drop ty vals T).subtreeAt0 1 with
    | none => throwE nullNodeMsg
    | some dice0 =>
      bindE (evalCore rng (f + 1) dice0 st) fun d =>
      bindE (sortedRollsE (evalCore rng (f + 1)) d.2.1
        (if jsStrictEq ((modDice1 .Drop ty vals T).getAttr kType) (.str sLowest) then
          Value.str sAscending else .str sDescending) d.2.2) fun s =>
      okE ((markDrop (Value.ofInt 1) s.2.1 0 (Value.ofInt 0)).2,
        (modDice1 .Drop ty vals T).updateAt0 1
          (applyMarks s.1 (markDrop (Value.ofInt 1) s.2.1 0 (Value.ofInt 0)).1),
        s.2.2.2)) = _
  rw [show (modDice1 .Drop ty vals T).subtreeAt0 1 = some (diceRolled vals T) from rfl]
  have hmemo : evalCore rng (f + 1) (diceRolled vals T) st =
      okE (Value.ofInt T, diceRolled vals T, st) := by
    have h := evalMemo rng f st (diceRolled vals T)
      (by rw [diceRolled_type]; decide)
      (by rw [getAttr_diceRolled, truthy_ofInt]; simp [hT])
    rw [getAttr_diceRolled] at h
    exact h
  show bindE (evalCore rng (f + 1) (diceRolled vals T) st) _ = _
  rw [hmemo, bindE_ok]
  rw [show (modDice1 .Drop ty vals T).getAttr kType = .str ty from rfl]
  rw [show jsStrictEq (Value.str ty) (.str sLowest) = decide (ty = sLowest) from rfl]
  have h6 : (diceRolled vals T).childCount = vals.length := by
    simp [diceRolled, Node.childCount, Node.children]
  by_cases hty : ty = sLowest
  · rw [if_pos (by simp [hty])]
    unfold sortedRollsE
    rw [h6, collectRolls_spec rng f vals T vals.length 0 (by omega) 0 st, bindE_ok]
    rw [show jsStrictEq (Value.str sAscending) (.str sDescending) = false from by
      simp [jsStrictEq, sAscending, sDescending]]
    simp only [Bool.false_eq_true, if_false]
    rw [show jsStrictEq (Value.str sAscending) (.str sAscending) = true from by
      simp [jsStrictEq]]
    simp only [if_true]
    rw [h6, show (diceRolled vals T).children = vals.map fun p => dieN p.1 p.2 from rfl]
    unfold dirSorted
    rw [if_pos hty]
    rfl
  · rw [if_neg (by simp [hty])]
    unfold sortedRollsE
    rw [h6, collectRolls_spec rng f vals T vals.length 0 (by omega) 0 st, bindE_ok]
    rw [show jsStrictEq (Value.str sDescending) (.str sDescending) = true from by
      simp [jsStrictEq]]
    simp only [if_true]
    rw [h6, show (diceRolled vals T).children = vals.map fun p => dieN p.1 p.2 from rfl]
    unfold dirSorted
    rw [if_neg hty]
    rfl

theorem evalKeepN_eq (rng : RandomProvider) (f : ℕ) (vals : List (ℤ × Bool)) (N T : ℤ)
    (hT : T ≠ 0) (ty : String) (st : EvalSt) :
    evalCore rng (f + 2) (modDiceN .Keep ty vals N T) st =
      okE ((markKeep (Value.ofInt N) (dirSorted ty vals) 0 (Value.ofInt 0)).2,
           Node.mk .Keep
             [applyMarks (diceRolled vals T)
               (markKeep (Value.ofInt N) (dirSorted ty vals) 0 (Value.ofInt 0)).1, intNode N]
             [(kType, .str ty),
              (kValue, (markKeep (Value.ofInt N) (dirSorted ty vals) 0 (Value.ofInt 0)).2)],
           st) := by
  have h0 : evalCore rng (f + 2) (modDiceN .Keep ty vals N T) st =
      evalStep rng (evalCore rng (f + 1)) (f + 1) (modDiceN .Keep ty vals N T) st := rfl
  rw [h0, evalStep]
  have h1 : ((modDiceN .Keep ty vals N T).type = NodeType.DiceRoll) = False := by
    simp [modDiceN, Node.type]
  have h2 : ((modDiceN .Keep ty vals N T).getAttr kValue).truthy = false := rfl
  simp only [h1, h2, if_false, Bool.false_eq_true]
  rw [show (modDiceN .Keep ty vals N T).type = .Keep from rfl]
  rw [evaluateKeepN_eq rng f vals N T hT ty st]
  rfl

theorem evalDropN_eq (rng : RandomProvider) (f : ℕ) (vals : List (ℤ × Bool)) (N T : ℤ)
    (hT : T ≠ 0) (ty : String) (st : EvalSt) :
    evalCore rng (f + 2) (modDiceN .Drop ty vals N T) st =
      okE ((markDrop (Value.ofInt N) (dirSorted ty vals) 0 (Value.ofInt 0)).2,
           Node.mk .Drop
             [applyMarks (diceRolled vals T)
               (markDrop (Value.ofInt N) (dirSorted ty vals) 0 (Value.ofInt 0)).1, intNode N]
             [(kType, .str ty),
              (kValue, (markDrop (Value.ofInt N) (dirSorted ty vals) 0 (Value.ofInt 0)).2)],
           st) := by
  have h0 : evalCore rng (f + 2) (modDiceN .Drop ty vals N T) st =
      evalStep rng (evalCore rng (f + 1)) (f + 1) (modDiceN .Drop ty vals N T) st := rfl
  rw [h0, evalStep]
  have h1 : ((modDiceN .Drop ty vals N T).type = NodeType.DiceRoll) = False := by
    simp [modDiceN, Node.type]
  have h2 : ((modDiceN .Drop ty vals N T).getAttr kValue).truthy = false := rfl
  simp only [h1, h2, if_false, Bool.false_eq_true]
  rw [show (modDiceN .Drop ty vals N T).type = .Drop from rfl]
  rw [evaluateDropN_eq rng f vals N T hT ty st]
  rfl

theorem evalKeep1_eq (rng : RandomProvider) (f : ℕ) (vals : List (ℤ × Bool)) (T : ℤ)
    (hT : T ≠ 0) (ty : String) (st : EvalSt) :
    evalCore rng (f + 2) (modDice1 .Keep ty vals T) st =
      okE ((markKeep (Value.ofInt 1) (dirSorted ty vals) 0 (Value.ofInt 0)).2,
           Node.mk .Keep
             [applyMarks (diceRolled vals T)
               (markKeep (Value.ofInt 1) (dirSorted ty vals) 0 (Value.ofInt 0)).1]
             [(kType, .str ty),
              (kValue, (markKeep (Value.ofInt 1) (dirSorted ty vals) 0 (Value.ofInt 0)).2)],
           st) := by
  have h0 : evalCore rng (f + 2) (modDice1 .Keep ty vals T) st =
      evalStep rng (evalCore rng (f + 1)) (f + 1) (modDice1 .Keep ty vals T) st := rfl
  rw [h0, evalStep]
  have h1 : ((modDice1 .Keep ty vals T).type = NodeType.DiceRoll) = False := by
    simp [modDice1, Node.type]
  have h2 : ((modDice1 .Keep ty vals T).getAttr kValue).truthy = false := rfl
  simp only [h1, h2, if_false, Bool.false_eq_true]
  rw [show (modDice1 .Keep ty vals T).type = .Keep from rfl]
  rw [evaluateKeep1_eq rng f vals T hT ty st]
  rfl

theorem evalDrop1_eq (rng : RandomProvider) (f : ℕ) (vals : List (ℤ × Bool)) (T : ℤ)
    (hT : T ≠ 0) (ty : String) (st : EvalSt) :
    evalCore rng (f + 2) (modDice1 .Drop ty vals T) st =
      okE ((markDrop (Value.ofInt 1) (dirSorted ty vals) 0 (Value.ofInt 0)).2,
           Node.mk .Drop
             [applyMarks (diceRolled vals T)
               (markDrop (Value.ofInt 1) (dirSorted ty vals) 0 (Value.ofInt 0)).1]
             [(kType, .str ty),
              (kValue, (markDrop (Value.ofInt 1) (dirSorted ty vals) 0 (Value.ofInt 0)).2)],
           st) := by
  have h0 : evalCore rng (f + 2) (modDice1 .Drop ty vals T) st =
      evalStep rng (evalCore rng (f + 1)) (f + 1) (modDice1 .Drop ty vals T) st := rfl
  rw [h0, evalStep]
  have h1 : ((modDice1 .Drop ty vals T).type = NodeType.DiceRoll) = False := by
    simp [modDice1, Node.type]
  have h2 : ((modDice1 .Drop ty vals T).getAttr kValue).truthy = false := rfl
  simp only [h1, h2, if_false, Bool.false_eq_true]
  rw [show (modDice1 .Drop ty vals T).type = .Drop from rfl]
  rw [evaluateDrop1_eq rng f vals T hT ty st]
  rfl

/-- C5 (amended): a Keep or Drop modifier over an already-rolled Dice
node sorts ALL of the dice node's DiceRoll children — already-dropped
ones included — ascending by value when the modifier's `type`
attribute is `"lowest"`, descending otherwise (in particular for
`"highest"`); Keep marks the first `N` of that order `drop = "no"`
and all the rest `drop = "yes"` while Drop marks the first `N`
`drop = "yes"` and the rest `drop = "no"`, in both cases overwriting
any previous drop marks; the returned total sums the values of
exactly the children marked `drop = "no"` (the first `N` for Keep,
the remainder for Drop); `N` defaults to 1 when the modifier has no
count operand; and the sorted roll sequence is a permutation of all
the children's values, descending for any non-`"lowest"` type and
ascending for `"lowest"`. -/
theorem c5_keep_drop_amended (rng : RandomProvider) (f : ℕ) (vals : List (ℤ × Bool))
    (N T : ℤ) (hT : T ≠ 0) (hN : 0 ≤ N) (st : EvalSt) :
    (∀ ty : String, evalCore rng (f + 2) (modDiceN .Keep ty vals N T) st =
      okE (Value.ofInt (rollsTakeSum (dirSorted ty vals) N.toNat),
           Node.mk .Keep
             [applyMarks (diceRolled vals T) (keepMarksOut (dirSorted ty vals) N.toNat),
              intNode N]
             [(kType, .str ty),
              (kValue, Value.ofInt (rollsTakeSum (dirSorted ty vals) N.toNat))],
           st)) ∧
    (∀ ty : String, evalCore rng (f + 2) (modDiceN .Drop ty vals N T) st =
      okE (Value.ofInt (rollsDropSum (dirSorted ty vals) N.toNat),
           Node.mk .Drop
             [applyMarks (diceRolled vals T) (dropMarksOut (dirSorted ty vals) N.toNat),
              intNode N]
             [(kType, .str ty),
              (kValue, Value.ofInt (rollsDropSum (dirSorted ty vals) N.toNat))],
           st)) ∧
    (∀ ty : String, evalCore rng (f + 2) (modDice1 .Keep ty vals T) st =
      okE (Value.ofInt (rollsTakeSum (dirSorted ty vals) 1),
           Node.mk .Keep
             [applyMarks (diceRolled vals T) (keepMarksOut (dirSorted ty vals) 1)]
             [(kType, .str ty),
              (kValue, Value.ofInt (rollsTakeSum (dirSorted ty vals) 1))],
           st)) ∧
    (∀ ty : String, evalCore rng (f + 2) (modDice1 .Drop ty vals T) st =
      okE (Value.ofInt (rollsDropSum (dirSorted ty vals) 1),
           Node.mk .Drop
             [applyMarks (diceRolled vals T) (dropMarksOut (dirSorted ty vals) 1)]
             [(kType, .str ty),
              (kValue, Value.ofInt (rollsDropSum (dirSorted ty vals) 1))],
           st)) ∧
    (∀ ty : String,
      ((dirSorted ty vals).map fun p => rollValInt p.2).Perm (vals.map Prod.fst)) ∧
    (∀ ty : String, ty ≠ sLowest →
      (dirSorted ty vals).Pairwise fun a b => rollValInt b.2 ≤ rollValInt a.2) ∧
    (dirSorted sLowest vals).Pairwise fun a b => rollValInt a.2 ≤ rollValInt b.2 := by
  refine ⟨?_, ?_, ?_, ?_, dirSorted_vals_perm vals,
    fun ty hty => dirSorted_sorted_desc ty hty vals, dirSorted_sorted_asc vals⟩
  · intro ty
    rw [evalKeepN_eq rng f vals N T hT ty st]
    have hm := markKeep_marks N hN (dirSorted ty vals) 0 (Value.ofInt 0)
    have ht2 := markKeep_total N hN (dirSorted ty vals) (dirSorted_hasIntVal ty vals) 0 0
    simp only [Nat.sub_zero, zero_add] at hm ht2
    rw [hm, ht2]
    rfl
  · intro ty
    rw [evalDropN_eq rng f vals N T hT ty st]
    have hm := markDrop_marks N hN (dirSorted ty vals) 0 (Value.ofInt 0)
    have ht2 := markDrop_total N hN (dirSorted ty vals) (dirSorted_hasIntVal ty vals) 0 0
    simp only [Nat.sub_zero, zero_add] at hm ht2
    rw [hm, ht2]
    rfl
  · intro ty
    rw [evalKeep1_eq rng f vals T hT ty st]
    have hm := markKeep_marks 1 (by norm_num) (dirSorted ty vals) 0 (Value.ofInt 0)
    have ht2 := markKeep_total 1 (by norm_num) (dirSorted ty vals)
      (dirSorted_hasIntVal ty vals) 0 0
    simp only [Nat.sub_zero, zero_add, Int.toNat_one] at hm ht2
    rw [hm, ht2]
    rfl
  · intro ty
    rw [evalDrop1_eq rng f vals T hT ty st]
    have hm := markDrop_marks 1 (by norm_num) (dirSorted ty vals) 0 (Value.ofInt 0)
    have ht2 := markDrop_total 1 (by norm_num) (dirSorted ty vals)
      (dirSorted_hasIntVal ty vals) 0 0
    simp only [Nat.sub_zero, zero_add, Int.toNat_one] at hm ht2
    rw [hm, ht2]
    rfl

theorem c5_keep_drop_amended_witness :
    (9 : ℤ) ≠ 0 ∧ (0 : ℤ) ≤ 2 ∧
    (evalCore rngLo 2 (modDiceN .Keep sLowest [(5, true), (3, false), (1, false)] 2 9)
        ⟨0, []⟩ =
      okE (Value.ofInt
             (rollsTakeSum (dirSorted sLowest [(5, true), (3, false), (1, false)])
               (2 : ℤ).toNat),
           Node.mk .Keep
             [applyMarks (diceRolled [(5, true), (3, false), (1, false)] 9)
               (keepMarksOut (dirSorted sLowest [(5, true), (3, false), (1, false)])
                 (2 : ℤ).toNat),
              intNode 2]
             [(kType, .str sLowest),
              (kValue, Value.ofInt
                (rollsTakeSum (dirSorted sLowest [(5, true), (3, false), (1, false)])
                  (2 : ℤ).toNat))],
           ⟨0, []⟩)) ∧
    (evalCore rngLo 2 (modDiceN .Drop sHighest [(5, true), (3, false), (1, false)] 2 9)
        ⟨0, []⟩ =
      okE (Value.ofInt
             (rollsDropSum (dirSorted sHighest [(5, true), (3, false), (1, false)])
               (2 : ℤ).toNat),
           Node.mk .Drop
             [applyMarks (diceRolled [(5, true), (3, false), (1, false)] 9)
               (dropMarksOut (dirSorted sHighest [(5, true), (3, false), (1, false)])
                 (2 : ℤ).toNat),
              intNode 2]
             [(kType, .str sHighest),
              (kValue, Value.ofInt
                (rollsDropSum (dirSorted sHighest [(5, true), (3, false), (1, false)])
                  (2 : ℤ).toNat))],
           ⟨0, []⟩)) ∧
    (evalCore rngLo 2 (modDice1 .Drop sLowest [(5, true), (3, false), (1, false)] 9)
        ⟨0, []⟩ =
      okE (Value.ofInt
             (rollsDropSum (dirSorted sLowest [(5, true), (3, false), (1, false)]) 1),
           Node.mk .Drop
             [applyMarks (diceRolled [(5, true), (3, false), (1, false)] 9)
               (dropMarksOut (dirSorted sLowest [(5, true), (3, false), (1, false)]) 1)]
             [(kType, .str sLowest),
              (kValue, Value.ofInt
                (rollsDropSum (dirSorted sLowest [(5, true), (3, false), (1, false)]) 1))],
           ⟨0, []⟩)) := by
  have h := c5_keep_drop_amended rngLo 0 [(5, true), (3, false), (1, false)] 2 9
    (by decide) (by decide) ⟨0, []⟩
  exact ⟨by decide, by decide, h.1 sLowest, h.2.1 sHighest, h.2.2.2.1 sLowest⟩
